import Mathlib

/-!
Verification development for the MXLIFF localization tool
(`xml_parser.py`, `document_parser.py`, `utils.py`).

Strings are modelled as `List Char` (`Str`).  The Python code locates XML
spans with a handful of fixed regular expressions; each of those patterns is
embedded here as an executable scanning function whose semantics match the
regex engine on the pattern in question (leftmost match, greedy `[^>]*`,
non-greedy `.*?`, backtracking as analysed in the comments of each
definition).  Machine integers do not occur (Python ints are unbounded);
counters are `Nat`, similarity ratios are `ℚ`.
-/

/-- Strings of the Python program, modelled as lists of characters. -/
abbrev Str := List Char

/-- Python whitespace (the set matched by `\s` for `str` patterns, which is
also the set stripped by `str.strip()` and tested by `str.isspace()`). -/
def isPySpace (c : Char) : Bool :=
  let n := c.toNat
  (0x9 ≤ n && n ≤ 0xD) || (0x1C ≤ n && n ≤ 0x20) || n == 0x85 || n == 0xA0 ||
    n == 0x1680 || (0x2000 ≤ n && n ≤ 0x200A) || n == 0x2028 || n == 0x2029 ||
    n == 0x202F || n == 0x205F || n == 0x3000

/-- Python `str.strip()`: drop leading and trailing whitespace. -/
def pystrip (s : Str) : Str :=
  ((s.dropWhile isPySpace).reverse.dropWhile isPySpace).reverse

/-- Python decimal digit test (`\d` for the ASCII digits that occur here). -/
def isDigitCh (c : Char) : Bool := '0' ≤ c && c ≤ '9'

/-- Value of a list of decimal digits (Python `int(...)` on the matched
digit run; Python integers are unbounded, so `Nat` is exact). -/
def natOfDigits (ds : Str) : Nat :=
  ds.foldl (fun a c => a * 10 + (c.toNat - 48)) 0

/-- Decimal rendering of a natural number (used for Python f-strings such as
`f"group_{group_idx}"`). -/
def natToStr (n : Nat) : Str := Nat.toDigits 10 n

/-- ASCII lower-casing of a string (Python `str.lower()` restricted to the
column names that occur; `Char.toLower` agrees with Python on ASCII). -/
def lowerStr (s : Str) : Str := s.map Char.toLower

/-- Boolean prefix test (the matching primitive of the scanners). -/
def ipo : Str → Str → Bool
  | [], _ => true
  | _ :: _, [] => false
  | a :: as, b :: bs => a == b && ipo as bs

/-- First occurrence of `p` in `s`: `some (a, b)` with `s = a ++ b`, `p` a
prefix of `b`, and no occurrence of `p` starting inside `a`.  This is the
searching primitive under every regex embedding below. -/
def splitFirst (p : Str) : Str → Option (Str × Str)
  | [] => if ipo p [] then some ([], []) else none
  | c :: t =>
    if ipo p (c :: t) then some ([], c :: t)
    else (splitFirst p t).map fun r => (c :: r.1, r.2)

/-- Python substring test `p in s`. -/
def containsSub (p s : Str) : Bool := (splitFirst p s).isSome

/-- One round of Python `str.replace`: replace every non-overlapping
occurrence of `p` in `s` by `r`, scanning left to right and continuing after
each replacement (fuelled; the fuel `s.length + 1` always suffices because
each step consumes at least one character of `s` when `p ≠ []`). -/
def replaceAllGo (p r : Str) : Nat → Str → Str
  | 0, s => s
  | n + 1, s =>
    match splitFirst p s with
    | none => s
    | some (a, b) => a ++ r ++ replaceAllGo p r n (b.drop p.length)

/-- Python `s.replace(p, r)` (all occurrences).  For the degenerate empty
pattern Python interleaves `r` between all characters; no call site uses an
empty pattern, but the case is modelled for totality. -/
def replaceAll (s p r : Str) : Str :=
  if p = [] then r ++ s.foldr (fun ch acc => ch :: (r ++ acc)) []
  else replaceAllGo p r (s.length + 1) s

/-- Python-dict insertion on an insertion-ordered association list: an
existing key keeps its position and has its value overwritten, a new key is
appended (exactly the `dict.__setitem__` ordering semantics). -/
def dictInsert {α : Type} : List (Str × α) → Str → α → List (Str × α)
  | [], k, v => [(k, v)]
  | (k', v') :: t, k, v =>
    if k' = k then (k', v) :: t else (k', v') :: dictInsert t k v

/-- Python-dict lookup on an association list. -/
def dictLookup {α : Type} (m : List (Str × α)) (k : Str) : Option α :=
  (m.find? fun e => e.1 == k).map (·.2)

/-- Python-set insertion for `updated_keys` (only membership and difference
are consumed, so an insertion-ordered duplicate-free list is a faithful
model). -/
def addKey (s : List Str) (k : Str) : List Str :=
  if k ∈ s then s else s ++ [k]

/-! ## The XML span scanners

Both Python files locate spans with `re` patterns of the shape
`<tag[^>]*>.*?</tag>` (with `re.DOTALL`), attribute patterns
`<tag\s+attr="([^"]*)"` and `<tag[^>]*attr="([^"]*)"`, and the
`<context\s+context-type="..."[^>]*>(.*?)</context>` pattern.  Each is
embedded as a function below.  The correspondence arguments (why the
backtracking regex engine and the function below agree) are given at each
definition. -/

/-- Result of matching `OPEN[^>]*>(.*?)CLOSE` at its leftmost position:
`pre` is the text before the match, `attrs` the `[^>]*` part, `inner` the
`(.*?)` part and `rest` the text after the match. -/
structure ElemScan where
  pre : Str
  attrs : Str
  inner : Str
  rest : Str
  deriving Repr, DecidableEq

/-- The whole matched span `OPEN ++ attrs ++ ">" ++ inner ++ CLOSE`. -/
def ElemScan.whole (o c : Str) (e : ElemScan) : Str :=
  o ++ e.attrs ++ '>' :: (e.inner ++ c)

/-- Leftmost match of the regex `OPEN[^>]*>(.*?)CLOSE` (with `re.DOTALL`).
The engine anchors at the leftmost occurrence of the literal `OPEN`; the
greedy `[^>]*>` is forced to the first `>` after it, and the non-greedy
`(.*?)CLOSE` to the first occurrence of `CLOSE` after that.  If the first
`>` or the first `CLOSE` is missing, every later anchor fails as well
(its searches start even further right), so the whole search fails:
returning `none` in those cases is exactly the regex behaviour. -/
def scanElemFull (o c : Str) (s : Str) : Option ElemScan :=
  (splitFirst o s).bind fun ab =>
    (splitFirst ['>'] (ab.2.drop o.length)).bind fun de =>
      (splitFirst c (de.2.drop 1)).map fun gh =>
        ⟨ab.1, de.1, gh.1, gh.2.drop c.length⟩

/-- Fuelled worker for `re.findall` on `OPEN[^>]*>.*?CLOSE`: emit the
leftmost match and continue after it.  Each successful match consumes at
least the `>` character, so fuel `s.length + 1` always suffices. -/
def findAllGo (o c : Str) : Nat → Str → List Str
  | 0, _ => []
  | n + 1, s =>
    match scanElemFull o c s with
    | none => []
    | some e => e.whole o c :: findAllGo o c n e.rest

/-- `re.findall(r'OPEN[^>]*>.*?CLOSE', s, re.DOTALL)`: all non-overlapping
matches, scanning left to right. -/
def findAllElems (o c : Str) (s : Str) : List Str :=
  findAllGo o c (s.length + 1) s

/-- Fuelled worker for `re.search(r'<context\s+TYPE[^>]*>(.*?)</context>', s,
re.DOTALL)` (with `TYPE` the literal `context-type="x-key"` or
`context-type="x-key-note"`).  At each occurrence of the literal
`<context` the engine needs at least one whitespace character (`\s+`; the
greedy repetition is deterministic because the following literal starts with
a non-space character), then the `TYPE` literal, then the first `>`, then
the first `</context>`.  A candidate failing on the whitespace or the
literal is abandoned and the engine advances — modelled by retrying from the
next character.  A candidate failing on the `>`/`</context>` searches would
make every later candidate fail too, so retrying there is also exactly the
regex result. -/
def scanCtxGo (typeLit : Str) : Nat → Str → Option Str
  | 0, _ => none
  | n + 1, s =>
    match splitFirst (("<context").data) s with
    | none => none
    | some (_, b) =>
      let c := b.drop 8
      let ws := c.takeWhile isPySpace
      if ws = [] then scanCtxGo typeLit n (b.drop 1)
      else
        let c2 := c.drop ws.length
        if ipo typeLit c2 then
          match splitFirst ['>'] (c2.drop typeLit.length) with
          | none => scanCtxGo typeLit n (b.drop 1)
          | some (_, e) =>
            match splitFirst (("</context>").data) (e.drop 1) with
            | none => scanCtxGo typeLit n (b.drop 1)
            | some (g, _) => some g
        else scanCtxGo typeLit n (b.drop 1)

/-- Search for a `<context context-type="x-key">…</context>` (or
`x-key-note`) element and return its inner text (`group(1)`). -/
def scanCtx (typeLit : Str) (s : Str) : Option Str :=
  scanCtxGo typeLit (s.length + 1) s

/-- Fuelled worker for `re.search(r'TAG\s+ATTR"([^"]*)"', s)` with `ATTR`
of the shape `id="` / `key="`: at each occurrence of the literal `TAG`, one
or more whitespace characters, then the literal `ATTR`, then everything up
to the next `"` is `group(1)`.  Candidates failing on whitespace or the
literal are abandoned (engine advances); a missing closing `"` makes every
later candidate fail as well (a later candidate's own `ATTR` literal would
supply a `"`), so returning the retry result is the regex behaviour. -/
def scanAttrWsGo (tagLit attrLit : Str) : Nat → Str → Option Str
  | 0, _ => none
  | n + 1, s =>
    match splitFirst tagLit s with
    | none => none
    | some (_, b) =>
      let c := b.drop tagLit.length
      let ws := c.takeWhile isPySpace
      if ws = [] then scanAttrWsGo tagLit attrLit n (b.drop 1)
      else
        let c2 := c.drop ws.length
        if ipo attrLit c2 then
          match splitFirst ['"'] (c2.drop attrLit.length) with
          | none => scanAttrWsGo tagLit attrLit n (b.drop 1)
          | some (g, _) => some g
        else scanAttrWsGo tagLit attrLit n (b.drop 1)

/-- `re.search(r'TAG\s+ATTR([^"]*)"', s)` returning `group(1)`. -/
def scanAttrWs (tagLit attrLit : Str) (s : Str) : Option Str :=
  scanAttrWsGo tagLit attrLit (s.length + 1) s

/-- All start indices of occurrences of `p` in `s`. -/
def occIdxs (p : Str) (s : Str) : List Nat :=
  (List.range (s.length + 1)).filter fun i => ipo p (s.drop i)

/-- Fuelled worker for `re.search(r'TAG[^>]*ATTR"([^"]*)"', s, re.DOTALL)`
(`ATTR` again `id="` / `key="`).  At each occurrence of `TAG` the greedy
`[^>]*` backtracks from longest, i.e. the engine tries the occurrences of
`ATTR` inside the `>`-free run after `TAG` from the last one backwards;
`([^"]*)"` then captures up to the first `"` after the literal (this search
may run past a `>`).  If no occurrence completes, the engine advances to the
next candidate. -/
def scanAttrGreedyGo (tagLit attrLit : Str) : Nat → Str → Option Str
  | 0, _ => none
  | n + 1, s =>
    match splitFirst tagLit s with
    | none => none
    | some (_, b) =>
      let r0 := b.drop tagLit.length
      let run := r0.takeWhile (· ≠ '>')
      let cands := (occIdxs attrLit run).reverse
      let hit := cands.findSome? fun pos =>
        match splitFirst ['"'] (r0.drop (pos + attrLit.length)) with
        | none => none
        | some (g, _) => some g
      match hit with
      | some g => some g
      | none => scanAttrGreedyGo tagLit attrLit n (b.drop 1)

/-- `re.search(r'TAG[^>]*ATTR([^"]*)"', s, re.DOTALL)` returning
`group(1)`. -/
def scanAttrGreedy (tagLit attrLit : Str) (s : Str) : Option Str :=
  scanAttrGreedyGo tagLit attrLit (s.length + 1) s

/-- Fuelled worker for `re.search(r'LIT\s*([^X]+)', s)` where `X` is a set
of excluded characters (`\n`, or `,` and `\n`).  After the literal, the
greedy `\s*` is tried from the longest whitespace run downwards; the first
length `j` whose following character exists and is not excluded wins, and
`([^X]+)` greedily captures to the next excluded character or the end.  If
no `j` works the candidate fails and the engine advances. -/
def searchLabelGo (lit : Str) (excl : List Char) : Nat → Str → Option Str
  | 0, _ => none
  | n + 1, s =>
    match splitFirst lit s with
    | none => none
    | some (_, b) =>
      let r0 := b.drop lit.length
      let run := (r0.takeWhile isPySpace).length
      let j? := ((List.range (run + 1)).reverse).find? fun j =>
        match r0.get? j with
        | some ch => ch ∉ excl
        | none => false
      match j? with
      | some j => some ((r0.drop j).takeWhile (· ∉ excl))
      | none => searchLabelGo lit excl n (b.drop 1)

/-- `re.search(r'LIT\s*([^X]+)', s)` returning `group(1)`. -/
def searchLabel (lit : Str) (excl : List Char) (s : Str) : Option Str :=
  searchLabelGo lit excl (s.length + 1) s

/-- Case-insensitive prefix test (for the one `re.IGNORECASE` pattern). -/
def isPrefixOfCI : Str → Str → Bool
  | [], _ => true
  | _ :: _, [] => false
  | a :: as, b :: bs => (a.toLower == b.toLower) && isPrefixOfCI as bs

/-- First occurrence of `p` in `s` up to ASCII case. -/
def splitFirstCI (p : Str) : Str → Option (Str × Str)
  | [] => if isPrefixOfCI p [] then some ([], []) else none
  | c :: t =>
    if isPrefixOfCI p (c :: t) then some ([], c :: t)
    else (splitFirstCI p t).map fun r => (c :: r.1, r.2)

/-- Fuelled worker for `re.search(r'Order:\s*(\d+)', s, re.IGNORECASE)`:
after a case-insensitive `Order:` and the greedy `\s*`, a digit must follow
immediately (backtracking into the whitespace run only offers whitespace
characters, which are not digits), and `(\d+)` captures the digit run. -/
def searchOrderGo : Nat → Str → Option Nat
  | 0, _ => none
  | n + 1, s =>
    match splitFirstCI (("Order:").data) s with
    | none => none
    | some (_, b) =>
      let r0 := b.drop 6
      let r1 := r0.dropWhile isPySpace
      let ds := r1.takeWhile isDigitCh
      if ds = [] then searchOrderGo n (b.drop 1) else some (natOfDigits ds)

/-- The `extract_order_value` helper of `utils.py`: the `Order:` number from
the key note, defaulting to 9999. -/
def extract_order_value (note : Str) : Nat :=
  if note = [] then 9999
  else match searchOrderGo (note.length + 1) note with
       | some n => n
       | none => 9999

/-! ## Tag literals -/

/-- Open-tag literal of the `group` pattern. -/
def gOpenL : Str := "<group".data
/-- Close-tag literal of the `group` pattern. -/
def gCloseL : Str := "</group>".data
/-- Open-tag literal of the `trans-unit` pattern. -/
def tuOpenL : Str := "<trans-unit".data
/-- Close-tag literal of the `trans-unit` pattern. -/
def tuCloseL : Str := "</trans-unit>".data
/-- Open-tag literal of the `context-group` pattern. -/
def cgOpenL : Str := "<context-group".data
/-- Close-tag literal of the `context-group` pattern. -/
def cgCloseL : Str := "</context-group>".data
/-- Open-tag literal of the `source` pattern. -/
def srcOpenL : Str := "<source".data
/-- Close-tag literal of the `source` pattern. -/
def srcCloseL : Str := "</source>".data
/-- Open-tag literal of the `target` pattern. -/
def tgOpenL : Str := "<target".data
/-- Close-tag literal of the `target` pattern. -/
def tgCloseL : Str := "</target>".data
/-- The `context-type="x-key"` literal of the key pattern. -/
def keyTypeL : Str := "context-type=\"x-key\"".data
/-- The `context-type="x-key-note"` literal of the note pattern. -/
def noteTypeL : Str := "context-type=\"x-key-note\"".data
/-- The `id="` attribute literal. -/
def idAttrL : Str := "id=\"".data
/-- The `key="` attribute literal. -/
def keyAttrL : Str := "key=\"".data

/-! ## MxliffExtractor: `XMLParser.parse_xml` -/

/-- One translation record as produced by `parse_xml` (the dictionary of
lines 140–156 of `xml_parser.py` as a typed record). -/
structure Record where
  index : Nat
  group_id : Str
  trans_id : Str
  source_text : Str
  target_text : Str
  original_target_text : Str
  key : Str
  speaker : Str
  speaker_target : Str
  speaker_gender : Str
  player_class : Str
  player_gender : Str
  order_value : Nat
  note_text : Str
  is_menulabel : Bool
  deriving Repr, DecidableEq

/-- Lines 77–96 of `xml_parser.py`: a trans-unit carrying its own
`context-group` starts from the group-level defaults and overwrites the key
and the note separately, each only when the unit block provides it. -/
def resolveUnitContext (tu : Str) (groupKey groupNote : Str) : Str × Str :=
  match scanElemFull cgOpenL cgCloseL tu with
  | none => (groupKey, groupNote)
  | some e =>
    (match scanCtx keyTypeL e.inner with
     | some k => pystrip k
     | none => groupKey,
     match scanCtx noteTypeL e.inner with
     | some nt => pystrip nt
     | none => groupNote)

/-- Lines 99–137 of `xml_parser.py`: the metadata fields extracted from the
resolved note text, as the tuple (speaker, speaker_target, speaker_gender,
player_class, player_gender, order_value). -/
def noteMeta (note : Str) : Str × Str × Str × Str × Str × Nat :=
  if note = [] then ([], [], [], [], [], 9999)
  else
    let spk := match searchLabel (("Speaker:").data) ['\n'] note with
      | some g => pystrip g | none => []
    let tgt := match searchLabel (("Target:").data) ['\n'] note with
      | some g => pystrip g | none => []
    let gen := match searchLabel (("Speaker Gender:").data) ['\n'] note with
      | some g => pystrip g | none => []
    let cls := match searchLabel (("Class:").data) ['\n'] note with
      | some g => pystrip g | none => []
    let pg := match searchLabel (("Player Gender:").data) ['\n'] note with
      | some g => pystrip g | none => []
    let gen2 := if gen = [] then
        match searchLabel (("Gender:").data) [',', '\n'] note with
        | some g => pystrip g | none => []
      else gen
    let tgt2 := if tgt = [] then
        match searchLabel (("speaking to:").data) [',', '\n'] note with
        | some g => pystrip g | none => tgt
      else tgt
    (spk, tgt2, gen2, cls, pg, extract_order_value note)

/-- Lines 26–156 of `xml_parser.py`: process one `group` span.  `gidx` is
the position of the group in the `findall` result (for the
`f"group_{group_idx}"` default id), `startIdx` the number of records
already emitted (the `'index': len(processed_data)` field). -/
def processGroup (group : Str) (gidx : Nat) (startIdx : Nat) : List Record :=
  let group_id := match scanAttrWs gOpenL idAttrL group with
    | some g => g
    | none => ("group_").data ++ natToStr gidx
  let gctx := scanElemFull cgOpenL cgCloseL group
  let group_key := match gctx with
    | some e => match scanCtx keyTypeL e.inner with
      | some k => pystrip k
      | none => []
    | none => []
  let group_note := match gctx with
    | some e => match scanCtx noteTypeL e.inner with
      | some nt => pystrip nt
      | none => []
    | none => []
  let tus := findAllElems tuOpenL tuCloseL group
  tus.enum.map fun p =>
    let tidx := p.1
    let tu := p.2
    let source_text := match scanElemFull srcOpenL srcCloseL tu with
      | some e => pystrip e.inner
      | none => []
    let target_text := match scanElemFull tgOpenL tgCloseL tu with
      | some e => pystrip e.inner
      | none => []
    let trans_id := match scanAttrWs tuOpenL idAttrL tu with
      | some g => g
      | none => ("trans_").data ++ natToStr tidx
    let kn := resolveUnitContext tu group_key group_note
    let meta := noteMeta kn.2
    { index := startIdx + tidx
      group_id := group_id
      trans_id := trans_id
      source_text := source_text
      target_text := target_text
      original_target_text := target_text
      key := kn.1
      speaker := meta.1
      speaker_target := meta.2.1
      speaker_gender := meta.2.2.1
      player_class := meta.2.2.2.1
      player_gender := meta.2.2.2.2.1
      order_value := meta.2.2.2.2.2
      note_text := kn.2
      is_menulabel := containsSub (("MenuLabel").data) kn.1 }

/-- The group loop of `parse_xml` with the body abstracted as a fallible
per-group processor: the Python `try`/`except` around the group body is
modelled by `f` returning `none` exactly when the body would raise, in
which case the group contributes nothing and processing continues (lines
25 and 158–161 of `xml_parser.py`). -/
def parseFold (f : Nat → Str → Nat → Option (List Record)) :
    List (Nat × Str) → List Record → List Record
  | [], acc => acc
  | (gidx, g) :: rest, acc =>
    match f gidx g acc.length with
    | some recs => parseFold f rest (acc ++ recs)
    | none => parseFold f rest acc

/-- `parse_xml` with an arbitrary fallible group processor. -/
def parseXmlWith (f : Nat → Str → Nat → Option (List Record)) (content : Str) :
    List Record :=
  parseFold f (findAllElems gOpenL gCloseL content).enum []

/-- `XMLParser.parse_xml`: extract all translation records.  The group body
(`processGroup`) is total — no statement in it can raise — so the installed
processor always succeeds. -/
def parse_xml (content : Str) : List Record :=
  parseXmlWith (fun gidx g start => some (processGroup g gidx start)) content

/-! ## MxliffPatcher: `XMLParser.update_xml_content` -/

/-- The fields of one record consumed by the patcher. -/
structure UItem where
  key : Str
  target_text : Str
  original_target_text : Str
  deriving Repr, DecidableEq

/-- One element of the `processed_data` list handed to the patcher (an
`is_header` flag plus the optional `'item'` entry). -/
structure URow where
  is_header : Bool
  item : Option UItem
  deriving Repr, DecidableEq

/-- Lines 184–198 of `xml_parser.py`: the `edited_translations` dictionary,
mapping each non-empty key whose target text differs from the original to
the pair (new text, original text). -/
def collectEdited (rs : List URow) : List (Str × (Str × Str)) :=
  rs.foldl (fun acc row =>
    match row.item with
    | none => acc
    | some it =>
      if row.is_header then acc
      else if it.key = [] then acc
      else if it.target_text = it.original_target_text then acc
      else dictInsert acc it.key (it.target_text, it.original_target_text)) []

/-- The bracketing markers of lines 256–257; the Python `id(trans_unit)`
(a per-object integer used only to make the marker unique) is modelled by
the index of the span in the `findall` list. -/
def markerStart (i : Nat) : Str :=
  ("<!-- XMLUPDATE_START_").data ++ natToStr i ++ (" -->").data

/-- End marker, see `markerStart`. -/
def markerEnd (i : Nat) : Str :=
  ("<!-- XMLUPDATE_END_").data ++ natToStr i ++ (" -->").data

/-- Group-pass start marker of lines 357–358 (same `id` modelling). -/
def groupMarkerStart (i : Nat) : Str :=
  ("<!-- XMLUPDATE_GROUP_START_").data ++ natToStr i ++ (" -->").data

/-- Group-pass end marker, see `groupMarkerStart`. -/
def groupMarkerEnd (i : Nat) : Str :=
  ("<!-- XMLUPDATE_GROUP_END_").data ++ natToStr i ++ (" -->").data

/-- The common prefix of every marker, the anchor of the cleanup pattern
`<!-- XMLUPDATE_[^>]*-->` of line 379. -/
def markerPfx : Str := "<!-- XMLUPDATE_".data

/-- Fuelled leftmost match of the cleanup pattern `<!-- XMLUPDATE_[^>]*-->`:
after the literal prefix, the greedy `[^>]*` runs to the first `>`, and
`-->` can only match ending at that `>`, so the candidate matches exactly
when the two characters before the first `>` are `--`; otherwise the
engine advances.  Returns the text before the match and the text after. -/
def findMarkerGo : Nat → Str → Option (Str × Str)
  | 0, _ => none
  | n + 1, s =>
    match splitFirst markerPfx s with
    | none => none
    | some (a, b) =>
      match splitFirst ['>'] (b.drop markerPfx.length) with
      | none => none
      | some (d, e) =>
        if 2 ≤ d.length ∧ d.drop (d.length - 2) = ("--").data then
          some (a, e.drop 1)
        else
          match findMarkerGo n (b.drop 1) with
          | none => none
          | some (a2, r2) => some (a ++ b.take 1 ++ a2, r2)

/-- Fuelled worker for `re.sub(r'<!-- XMLUPDATE_[^>]*-->', '', s)`. -/
def reSubGo : Nat → Str → Str
  | 0, s => s
  | n + 1, s =>
    match findMarkerGo (s.length + 1) s with
    | none => s
    | some (a, rest) => a ++ reSubGo n rest

/-- Line 379 of `xml_parser.py`: strip every marker comment. -/
def reSubMarkers (s : Str) : Str := reSubGo (s.length + 1) s

/-- Lines 228–238: resolve a trans-unit's key from its `context-group`
(first-pass key resolution; also pattern 1 of the second pass). -/
def tuKeyFirstPass (tu : Str) : Option Str :=
  match scanElemFull cgOpenL cgCloseL tu with
  | none => none
  | some e => (scanCtx keyTypeL e.inner).map pystrip

/-- Lines 241–268: one iteration of the first pass over the trans-unit
spans.  The state is (current text, `updated_keys`); the span list and its
indices are fixed before the loop.  An empty resolved key is never a key of
`edited` (only non-empty keys are collected), so the Python guard
`if key and key in edited_translations` is exactly the successful lookup. -/
def firstPassStep (edited : List (Str × (Str × Str)))
    (st : Str × List Str) (itu : Nat × Str) : Str × List Str :=
  match tuKeyFirstPass itu.2 with
  | none => st
  | some k =>
    match dictLookup edited k with
    | none => st
    | some nv =>
      match scanElemFull tgOpenL tgCloseL itu.2 with
      | none => st
      | some tm =>
        let targetWhole := tm.whole tgOpenL tgCloseL
        let openTag := tgOpenL ++ tm.attrs ++ ['>']
        let utu := replaceAll itu.2 targetWhole (openTag ++ nv.1 ++ tgCloseL)
        let ms := markerStart itu.1
        let me := markerEnd itu.1
        let x1 := replaceAll st.1 itu.2 (ms ++ itu.2 ++ me)
        let x2 := replaceAll x1 (ms ++ itu.2 ++ me) (ms ++ utu ++ me)
        (x2, addKey st.2 k)

/-- Lines 292–331: second-pass key resolution for one trans-unit (pattern 1:
own `context-group`; pattern 2: a `key="` attribute; pattern 3: the group
has a context key and the stripped trans-unit id is a substring of a missing
key or vice versa — the first such missing key, in insertion order, wins;
the Python iteration is over a `set`, whose unspecified order is modelled by
insertion order). -/
def tuKeySecondPass (missing : List Str) (group tu : Str) : Option Str :=
  match tuKeyFirstPass tu with
  | some k => some k
  | none =>
    match scanAttrGreedy tuOpenL keyAttrL tu with
    | some k => some (pystrip k)
    | none =>
      match scanElemFull cgOpenL cgCloseL group with
      | none => none
      | some ge =>
        match scanCtx keyTypeL ge.inner with
        | none => none
        | some _ =>
          match scanAttrGreedy tuOpenL idAttrL tu with
          | none => none
          | some tid0 =>
            let tid := pystrip tid0
            missing.find? fun mk => containsSub tid mk || containsSub mk tid

/-- Lines 334–352: one trans-unit of the second pass.  The accumulator is
(updated group text, group_modified, `updated_keys`).  A key found here lies
in `missing`, hence in `edited`, so the Python `edited_translations[key]`
lookup cannot fail; the `none` branch of the lookup below is unreachable. -/
def secondPassUnit (edited : List (Str × (Str × Str))) (missing : List Str)
    (group : Str) (acc : Str × Bool × List Str) (tu : Str) :
    Str × Bool × List Str :=
  match tuKeySecondPass missing group tu with
  | none => acc
  | some k =>
    if k ∈ missing then
      match scanElemFull tgOpenL tgCloseL tu with
      | none => acc
      | some tm =>
        let targetWhole := tm.whole tgOpenL tgCloseL
        let openTag := tgOpenL ++ tm.attrs ++ ['>']
        let nv := match dictLookup edited k with
          | some v => v.1
          | none => []
        let utu := replaceAll tu targetWhole (openTag ++ nv ++ tgCloseL)
        (replaceAll acc.1 tu utu, true, addKey acc.2.2 k)
    else acc

/-- Lines 284–366: one group of the second pass; the state is
(current text, `updated_keys`). -/
def secondPassStep (edited : List (Str × (Str × Str))) (missing : List Str)
    (st : Str × List Str) (ig : Nat × Str) : Str × List Str :=
  let group := ig.2
  let tus := findAllElems tuOpenL tuCloseL group
  let r := tus.foldl (secondPassUnit edited missing group) (group, false, st.2)
  if r.2.1 then
    let gms := groupMarkerStart ig.1
    let gme := groupMarkerEnd ig.1
    let x1 := replaceAll st.1 group (gms ++ group ++ gme)
    let x2 := replaceAll x1 (gms ++ group ++ gme) (gms ++ r.1 ++ gme)
    (x2, r.2.2)
  else (st.1, r.2.2)

/-- `XMLParser.update_xml_content`: patch the original XML text with the
edited translations.  The two `raise ValueError` statements of lines
171–175 are the only exceptions the function can raise (everything after
them is straight-line regex and string code), modelled by the `Except`
error branch. -/
def update_xml_content (original : Str) (processed_data : List URow) :
    Except Str Str :=
  if original = [] then
    .error (("No original XML content available").data)
  else if processed_data = [] then
    .error (("No processed data available").data)
  else
    let edited := collectEdited processed_data
    if edited = [] then .ok original
    else
      let tus := findAllElems tuOpenL tuCloseL original
      let fp := tus.enum.foldl (firstPassStep edited) (original, [])
      let missing := (edited.map (·.1)).filter (· ∉ fp.2)
      let sp :=
        if missing = [] then fp
        else
          let groups := findAllElems gOpenL gCloseL fp.1
          groups.enum.foldl (secondPassStep edited missing) fp
      .ok (reSubMarkers sp.1)

/-! ## TextNormalizer: `DocumentParser._clean_text_for_comparison`

The file defines `_clean_text_for_comparison` twice; the second (undecorated)
definition, lines 671–707, is the one bound on the class and therefore the
active normalizer.  Its first `re.sub` call is written as
`re.sub(r'['` `'‚‛""„‟\x00-\x1F\x7F]', …)` in the source: the raw literal
ends at the second quote, so the pattern that actually compiles is the
character class `‚ ‛ " „ ‟ \x00-\x1f \x7f`, and of the replacement dict only
the entry mapping `"` to itself survives parsing; every other matched
character is replaced by the default `' '`.  The embedding below reproduces
that compiled behaviour (verified against the running function). -/

/-- The character class of the first `re.sub` of the active
`_clean_text_for_comparison`. -/
def isClassChar (c : Char) : Bool :=
  let n := c.toNat
  n ≤ 0x1F || n == 0x7F || n == 0x22 ||
    n == 0x201A || n == 0x201B || n == 0x201E || n == 0x201F

/-- Per-character replacement of that `re.sub`: `"` maps to itself, every
other class character to a space, everything else is untouched. -/
def replClassChar (c : Char) : Char :=
  if isClassChar c then (if c = '"' then c else ' ') else c

/-- Worker for `re.sub(r'\s+', ' ', s)`: the flag records whether the scan
is inside a whitespace run whose single replacement space was already
emitted, so the remaining spaces of the run are dropped. -/
def collapseWsAux : Bool → Str → Str
  | _, [] => []
  | inWs, c :: t =>
    if isPySpace c then
      if inWs then collapseWsAux true t else ' ' :: collapseWsAux true t
    else c :: collapseWsAux false t

/-- `re.sub(r'\s+', ' ', s)`: each maximal whitespace run becomes one
space. -/
def collapseWs (s : Str) : Str := collapseWsAux false s

/-- The active `_clean_text_for_comparison` (lines 671–707): `None` maps to
the empty string, otherwise strip, short-circuit the empty result, apply the
character-class substitution, collapse whitespace and strip again.  The
`try`/`except` of the source cannot fire (`re.sub` on a compiled constant
pattern does not raise), so the fallback branch is dead code. -/
def clean_text_for_comparison : Option Str → Str
  | none => []
  | some s0 =>
    let s := pystrip s0
    if s = [] then []
    else pystrip (collapseWs (s.map replClassChar))

/-! ## TableMatcher: `DocumentParser.match_content_with_mxliff`

The file also defines `match_content_with_mxliff` twice; the second
definition (lines 737–850) is the active one and is embedded here.  The
similarity oracle `difflib.SequenceMatcher(None, a, b).ratio()` is an
external library routine and is modelled as a function parameter
`simRatio : Str → Str → ℚ`; the float threshold `0.8` is the rational
`4/5`.  A table's dataframe is modelled as its column names plus its rows
as cell lists aligned with the columns. -/

/-- The record fields consumed by the matcher. -/
structure MItem where
  key : Str
  source_text : Str
  deriving Repr, DecidableEq

/-- One element of the `mxliff_data` list (the `data.get('is_header', True)`
default means a row without the flag behaves as a header, i.e. is
skipped). -/
structure MRow where
  is_header : Bool
  item : Option MItem
  deriving Repr, DecidableEq

/-- One extracted document table. -/
structure DocTable where
  has_conversation_column : Bool
  columns : List Str
  rows : List (List Str)
  deriving Repr, DecidableEq

/-- One emitted update dictionary; `match_ratio` is `some` exactly when the
Python dict carries the `'match_ratio'` entry. -/
structure MUpdate where
  key : Str
  source_text : Str
  comment : Str
  match_type : Str
  match_ratio : Option ℚ
  deriving Repr, DecidableEq

/-- The result dictionary mapping the keys `'matches'` and `'updates'`
(the first field is named `matchCount` because `matches` is a reserved word
in Lean). -/
structure MatchResult where
  matchCount : Nat
  updates : List MUpdate
  deriving Repr, DecidableEq

/-- Lines 749–750: `preprocess_text` (strip, then the active cleaner). -/
def preprocess_text (s : Str) : Str :=
  clean_text_for_comparison (some (pystrip s))

/-- Lines 753–764: the `mxliff_lookup` dictionary from cleaned source text
(length at least 10) to the pair (key, stripped original source text). -/
def buildLookup (dat : List MRow) : List (Str × (Str × Str)) :=
  dat.foldl (fun acc row =>
    match row.item with
    | none => acc
    | some it =>
      if row.is_header then acc
      else
        let src := pystrip it.source_text
        if src = [] then acc
        else
          let cl := preprocess_text src
          if 10 ≤ cl.length then dictInsert acc cl (it.key, src) else acc) []

/-- Lines 784–785: the first column whose lower-cased name contains the
needle (`next((col for col in df.columns if needle in str(col).lower()),
None)`), as an index into the column list. -/
def findColIdx (cols : List Str) (needle : Str) : Option Nat :=
  cols.findIdx? fun c => containsSub needle (lowerStr c)

/-- Lines 815–832: the fuzzy scan over the lookup for one row, returning
(best match, best ratio) with initial state (`None`, `4/5`) and the strict
`ratio > best_ratio` update. -/
def fuzzyScan (simRatio : Str → Str → ℚ) (cl : Str)
    (lookup : List (Str × (Str × Str))) : Option (Str × Str) × ℚ :=
  lookup.foldl (fun acc e =>
    if cl.length < 10 || e.1.length < 10 then acc
    else if 5 < ((cl.length : ℤ) - (e.1.length : ℤ)).natAbs then acc
    else
      let r := simRatio cl e.1
      if acc.2 < r then (some e.2, r) else acc) (none, 4/5)

/-- Lines 790–842: the row loop of one table.  The state is
(`match_count`, `updates`); the `break` at 500 ends the row loop of the
current table, modelled by returning the state unchanged for the remaining
rows. -/
def processRows (simRatio : Str → Str → ℚ) (lookup : List (Str × (Str × Str)))
    (si ci : Nat) : List (List Str) → Nat × List MUpdate → Nat × List MUpdate
  | [], st => st
  | row :: rest, st =>
    if 500 ≤ st.1 then st
    else
      let src := pystrip ((row.get? si).getD [])
      let cmt := pystrip ((row.get? ci).getD [])
      if src = [] || cmt = [] then processRows simRatio lookup si ci rest st
      else
        let cl := preprocess_text src
        match dictLookup lookup cl with
        | some md =>
          processRows simRatio lookup si ci rest
            (st.1 + 1, st.2 ++ [⟨md.1, cl, cmt, ("exact").data, none⟩])
        | none =>
          match fuzzyScan simRatio cl lookup with
          | (some bm, br) =>
            processRows simRatio lookup si ci rest
              (st.1 + 1, st.2 ++ [⟨bm.1, bm.2, cmt, ("fuzzy").data, some br⟩])
          | (none, _) => processRows simRatio lookup si ci rest st

/-- Lines 780–788: one table — detect the source and comment columns and run
the row loop; a table lacking either column is skipped. -/
def processTable (simRatio : Str → Str → ℚ)
    (lookup : List (Str × (Str × Str))) (st : Nat × List MUpdate)
    (t : DocTable) : Nat × List MUpdate :=
  match findColIdx t.columns (("source").data),
        findColIdx t.columns (("comment").data) with
  | some si, some ci => processRows simRatio lookup si ci t.rows st
  | _, _ => st

/-- The active `DocumentParser.match_content_with_mxliff` (lines 737–850):
early exits on missing data or missing conversation tables, then the table
loop over the conversation tables (`get_conversation_tables`, line 505,
filters on `has_conversation_column`; line 769 additionally drops empty
dataframes). -/
def match_content_with_mxliff (simRatio : Str → Str → ℚ)
    (tables : List DocTable) (mxliff_data : List MRow) : MatchResult :=
  if mxliff_data = [] || tables = [] then ⟨0, []⟩
  else
    let lookup := buildLookup mxliff_data
    let convTables :=
      (tables.filter (·.has_conversation_column)).filter fun t =>
        0 < t.rows.length
    if convTables = [] then ⟨0, []⟩
    else
      let r := convTables.foldl (processTable simRatio lookup) (0, [])
      ⟨r.1, r.2⟩

/-- The shape every emitted update dictionary is expected to satisfy: the
match type is `exact` with no ratio entry, or `fuzzy` with a ratio entry. -/
def updShapeOk (u : MUpdate) : Bool :=
  (u.match_type == ("exact").data && u.match_ratio.isNone) ||
    (u.match_type == ("fuzzy").data && u.match_ratio.isSome)

/-- Fixture: one extraction record whose cleaned source text
(`abcdefghij`, length 10) qualifies for the fuzzy lookup. -/
def datB : List MRow := [⟨false, some ⟨("K").data, ("abcdefghij").data⟩⟩]

/-- Fixture: one conversation table whose single row carries a source cell
differing from the record source in its last character. -/
def tabsB : List DocTable :=
  [⟨true, [("Source").data, ("Comment").data],
    [[("abcdefghiX").data, ("c").data]]⟩]

/-- The single table row of the fixture. -/
def rowB : List Str := [("abcdefghiX").data, ("c").data]

/-- The lookup dictionary `buildLookup datB` evaluates to. -/
def lkB : List (Str × (Str × Str)) :=
  [((("abcdefghij").data), ((("K").data), (("abcdefghij").data)))]

/-- Fixture: a column list with a plain comment column before a coteam
comment column. -/
def colsC : List Str :=
  [("Source").data, ("My Comment").data, ("COTeam Comment").data]

/-- Fixture: one conversation table over `colsC` whose single row matches
the `datB` record exactly and carries distinct texts in the two comment
columns. -/
def tabC : DocTable :=
  ⟨true, colsC,
    [[("abcdefghij").data, ("mycmt").data, ("teamcmt").data]]⟩

/-- The comment-column chooser as worded by the specification (NOT by the
code): prefer the first column whose lower-cased name contains both the
needle and the preferred marker, falling back to the first column containing
the needle alone. -/
def findColIdxClaimC4 (cols : List Str) (needle pref : Str) : Option Nat :=
  match cols.findIdx? (fun c =>
      containsSub needle (lowerStr c) && containsSub pref (lowerStr c)) with
  | some i => some i
  | none => cols.findIdx? fun c => containsSub needle (lowerStr c)

/-- Fixture: a group carrying a group-level context (key `GK`, note `GN`)
whose single trans-unit carries its own context-group providing only a key
(`UK`). -/
def exC3 : Str :=
  ("<group id=\"G\"><context-group><context context-type=\"x-key\">GK</context><context context-type=\"x-key-note\">GN</context></context-group><trans-unit id=\"T\"><source>S</source><target>W</target><context-group><context context-type=\"x-key\">UK</context></context-group></trans-unit></group>").data

/-- Fixture: a trans-unit body whose own context-group provides a key and
no note. -/
def tuC3 : Str :=
  ("<context-group><context context-type=\"x-key\">UK</context></context-group>").data

/-- Fixture: a trans-unit body whose own context-group provides both a key
and a note. -/
def tuC3b : Str :=
  ("<context-group><context context-type=\"x-key\">UK</context><context context-type=\"x-key-note\">UN</context></context-group>").data

/-- Mismatch witness inside the concrete leading parts of two strings. -/
def conflict : Str → Str → Bool
  | [], _ => false
  | _ :: _, [] => false
  | a :: as, b :: bs => a != b || conflict as bs

/-! Template tag pieces (each piece has one `<`, at its head). -/

/-- The `<trans-unit>` open tag of the canonical trans-unit template. -/
def tagTU : Str := "<trans-unit>".data
/-- The `<source>` tag. -/
def tagSrcO : Str := "<source>".data
/-- The `<target>` tag. -/
def tagTgO : Str := "<target>".data
/-- The `<context-group>` tag. -/
def tagCgO : Str := "<context-group>".data
/-- The `<context context-type="x-key">` open tag. -/
def tagCtxK : Str := "<context context-type=\"x-key\">".data
/-- The `</context>` tag. -/
def tagCtxC : Str := "</context>".data

/-- The inner text of the canonical trans-unit span (everything between the
`<trans-unit>` open tag and the `</trans-unit>` close tag). -/
def tuInner (s t k : Str) : Str :=
  tagSrcO ++ s ++ srcCloseL ++ tagTgO ++ t ++ tgCloseL ++
    tagCgO ++ tagCtxK ++ k ++ tagCtxC ++ cgCloseL

/-- A canonical well-formed trans-unit span with source text `s`, target
text `t` and context key `k`. -/
def mkTU (s t k : Str) : Str :=
  tagTU ++ tuInner s t k ++ tuCloseL

/-- The tail of the canonical trans-unit after its target element. -/
def tgTail (k : Str) : Str :=
  tagCgO ++ (tagCtxK ++ (k ++ (tagCtxC ++ (cgCloseL ++ tuCloseL))))

/-- Right strip (the second half of `pystrip`). -/
def rstrip (s : Str) : Str := (s.reverse.dropWhile isPySpace).reverse

/-- Strings whose whitespace is exactly isolated single ASCII spaces (the
normal form produced by the whitespace collapse). -/
def IsolSp (s : Str) : Prop :=
  (∀ c ∈ s, isPySpace c = true → c = ' ') ∧
    List.Chain' (fun a b => ¬(isPySpace a = true ∧ isPySpace b = true)) s

theorem ipo_nil (s : Str) : ipo [] s = true := by cases s <;> rfl

theorem ipo_cons (a : Char) (as : Str) (b : Char) (bs : Str) :
    ipo (a :: as) (b :: bs) = ((a == b) && ipo as bs) := rfl

theorem sf_parts (p : Str) : ∀ (s a b : Str), splitFirst p s = some (a, b) →
    s = a ++ b ∧ ipo p b = true := by
  intro s
  induction s with
  | nil =>
    intro a b h
    by_cases hp : ipo p [] = true <;> simp [splitFirst, hp] at h
    rcases h with ⟨rfl, rfl⟩
    exact ⟨rfl, hp⟩
  | cons c t ih =>
    intro a b h
    by_cases hp : ipo p (c :: t) = true
    · simp [splitFirst, hp] at h
      rcases h with ⟨rfl, rfl⟩
      exact ⟨rfl, hp⟩
    · simp [splitFirst, hp] at h
      rcases h with ⟨a', hsf, h1⟩
      subst h1
      rcases ih a' b hsf with ⟨rfl, hpb⟩
      exact ⟨rfl, hpb⟩

theorem ipo_self_app (p b : Str) : ipo p (p ++ b) = true := by
  induction p with
  | nil => exact ipo_nil b
  | cons c t ih => simp [ipo_cons, ih]

theorem sf_found (p b : Str) : splitFirst p (p ++ b) = some ([], p ++ b) := by
  cases hpb : p ++ b with
  | nil => simp [splitFirst, hpb ▸ ipo_self_app p b]
  | cons c t => simp [splitFirst, hpb ▸ ipo_self_app p b]

theorem sf_skip (ph : Char) (pt a b : Str) (ha : ph ∉ a) :
    splitFirst (ph :: pt) (a ++ b) =
      (splitFirst (ph :: pt) b).map fun r => (a ++ r.1, r.2) := by
  induction a with
  | nil =>
    simp only [List.nil_append]
    cases splitFirst (ph :: pt) b <;> simp
  | cons c t ih =>
    have hc : (ph == c) = false := by
      simp only [beq_eq_false_iff_ne, ne_eq]
      intro hh; exact ha (hh ▸ List.mem_cons_self c t)
    have hnp : ipo (ph :: pt) (c :: (t ++ b)) = false := by
      simp [ipo_cons, hc]
    rw [List.cons_append, splitFirst.eq_def]
    simp only [hnp, Bool.false_eq_true, if_false]
    rw [ih (fun hm => ha (List.mem_cons_of_mem c hm))]
    cases splitFirst (ph :: pt) b <;> simp

theorem sf_none (ph : Char) (pt a : Str) (ha : ph ∉ a) :
    splitFirst (ph :: pt) a = none := by
  have h := sf_skip ph pt a [] ha
  rw [List.append_nil] at h
  rw [h]
  rw [splitFirst.eq_def]
  simp [show ipo (ph :: pt) [] = false from rfl]


theorem npf_of_conflict1 (p q y : Str) (h : conflict p q = true) :
    ipo p (q ++ y) = false := by
  induction p generalizing q with
  | nil => simp [conflict] at h
  | cons a as ih =>
    cases q with
    | nil => simp [conflict] at h
    | cons b bs =>
      simp only [conflict, Bool.or_eq_true, bne_iff_ne, ne_eq] at h
      rcases h with h | h
      · simp [List.cons_append, ipo_cons, beq_eq_false_iff_ne.mpr h]
      · simp [List.cons_append, ipo_cons, ih bs h]

theorem ipo_app_left (p x s : Str) (h : ipo (p ++ x) s = true) :
    ipo p s = true := by
  induction p generalizing s with
  | nil => exact ipo_nil s
  | cons a as ih =>
    cases s with
    | nil => simp [ipo] at h
    | cons b bs =>
      simp only [List.cons_append, ipo_cons, Bool.and_eq_true] at h ⊢
      exact ⟨h.1, ih bs h.2⟩

theorem npf_of_conflict (cp pr q y : Str) (h : conflict cp q = true) :
    ipo (cp ++ pr) (q ++ y) = false := by
  by_cases hh : ipo (cp ++ pr) (q ++ y) = true
  · exact absurd (ipo_app_left cp pr _ hh) (by simp [npf_of_conflict1 cp q y h])
  · simpa using hh

theorem ipo_cancel (C a d : Str) :
    ipo (C ++ a) (C ++ d) = ipo a d := by
  induction C with
  | nil => rfl
  | cons c t ih => simp [List.cons_append, ipo_cons, ih]

theorem key_mismatch (k1 k2 : Str) (r1 r2 : Str) (hne : k1 ≠ k2)
    (h1 : '<' ∉ k1) (h2 : '<' ∉ k2) :
    ipo (k1 ++ '<' :: r1) (k2 ++ '<' :: r2) = false := by
  induction k1 generalizing k2 with
  | nil =>
    cases k2 with
    | nil => exact absurd rfl hne
    | cons b bs =>
      have hb : ('<' == b) = false := by
        simp only [beq_eq_false_iff_ne, ne_eq]
        intro hh; exact h2 (hh ▸ List.mem_cons_self b bs)
      simp [ipo_cons, hb]
  | cons a as ih =>
    cases k2 with
    | nil =>
      have hb : (a == '<') = false := by
        simp only [beq_eq_false_iff_ne, ne_eq]
        intro hh; exact h1 (hh ▸ List.mem_cons_self a as)
      simp [ipo_cons, hb]
    | cons b bs =>
      by_cases hab : a = b
      · subst hab
        have hne' : as ≠ bs := fun hh => hne (hh ▸ rfl)
        simp [List.cons_append, ipo_cons,
          ih bs hne' (fun hm => h1 (List.mem_cons_of_mem a hm))
            (fun hm => h2 (List.mem_cons_of_mem a hm))]
      · simp [List.cons_append, ipo_cons, beq_eq_false_iff_ne.mpr hab]

theorem sf_step (p : Str) (c : Char) (r : Str)
    (hnp : ipo p (c :: r) = false) :
    splitFirst p (c :: r) =
      (splitFirst p r).map fun x => (c :: x.1, x.2) := by
  rw [splitFirst.eq_def]
  simp [hnp]

theorem sf_tag (ph : Char) (pt tr b : Str) (htr : ph ∉ tr)
    (hnp : ipo (ph :: pt) ((ph :: tr) ++ b) = false) :
    splitFirst (ph :: pt) ((ph :: tr) ++ b) =
      (splitFirst (ph :: pt) b).map fun r => ((ph :: tr) ++ r.1, r.2) := by
  rw [List.cons_append, sf_step _ _ _ (by simpa using hnp),
    sf_skip ph pt tr b htr]
  cases splitFirst (ph :: pt) b <;> simp

theorem sf_skip2 (p a b : Str) (hp : p.head? = some '<') (ha : '<' ∉ a) :
    splitFirst p (a ++ b) =
      (splitFirst p b).map fun r => (a ++ r.1, r.2) := by
  cases p with
  | nil => simp at hp
  | cons ph pt =>
    have : ph = '<' := by simpa using hp
    subst this
    exact sf_skip '<' pt a b ha

theorem sf_tagNP (p tag b : Str) (hp : p.head? = some '<')
    (htag1 : tag.head? = some '<') (htag2 : '<' ∉ tag.tail)
    (hnp : ipo p (tag ++ b) = false) :
    splitFirst p (tag ++ b) =
      (splitFirst p b).map fun r => (tag ++ r.1, r.2) := by
  cases p with
  | nil => simp at hp
  | cons ph pt =>
    have hph : ph = '<' := by simpa using hp
    subst hph
    cases tag with
    | nil => simp at htag1
    | cons c tr =>
      have hc : c = '<' := by simpa using htag1
      subst hc
      exact sf_tag '<' pt tr b (by simpa using htag2) hnp

theorem sf_tag2 (p tag b : Str) (hp : p.head? = some '<')
    (htag1 : tag.head? = some '<') (htag2 : '<' ∉ tag.tail)
    (hconf : conflict p tag = true) :
    splitFirst p (tag ++ b) =
      (splitFirst p b).map fun r => (tag ++ r.1, r.2) :=
  sf_tagNP p tag b hp htag1 htag2 (npf_of_conflict1 p tag b hconf)


theorem walk_close_tu (s t k r : Str)
    (hs : '<' ∉ s) (ht : '<' ∉ t) (hk : '<' ∉ k) :
    splitFirst tuCloseL (tuInner s t k ++ (tuCloseL ++ r)) =
      some (tuInner s t k, tuCloseL ++ r) := by
  simp only [tuInner]
  simp only [List.append_assoc]
  rw [sf_tag2 tuCloseL tagSrcO _ (by decide) (by decide) (by decide) (by decide),
    sf_skip2 tuCloseL s _ (by decide) hs,
    sf_tag2 tuCloseL srcCloseL _ (by decide) (by decide) (by decide) (by decide),
    sf_tag2 tuCloseL tagTgO _ (by decide) (by decide) (by decide) (by decide),
    sf_skip2 tuCloseL t _ (by decide) ht,
    sf_tag2 tuCloseL tgCloseL _ (by decide) (by decide) (by decide) (by decide),
    sf_tag2 tuCloseL tagCgO _ (by decide) (by decide) (by decide) (by decide),
    sf_tag2 tuCloseL tagCtxK _ (by decide) (by decide) (by decide) (by decide),
    sf_skip2 tuCloseL k _ (by decide) hk,
    sf_tag2 tuCloseL tagCtxC _ (by decide) (by decide) (by decide) (by decide),
    sf_tag2 tuCloseL cgCloseL _ (by decide) (by decide) (by decide) (by decide),
    sf_found]
  simp [List.append_assoc]

theorem ipo_eq_append (p b : Str) (h : ipo p b = true) :
    p ++ b.drop p.length = b := by
  induction p generalizing b with
  | nil => simp
  | cons a as ih =>
    cases b with
    | nil => simp [ipo] at h
    | cons c cs =>
      simp only [ipo_cons, Bool.and_eq_true, beq_iff_eq] at h
      obtain ⟨rfl, h2⟩ := h
      simpa using ih cs h2

theorem tagTU_eq : tagTU = tuOpenL ++ ['>'] := by decide

theorem scanElem_mkTU (pre s t k rest : Str) (hpre : '<' ∉ pre)
    (hs : '<' ∉ s) (ht : '<' ∉ t) (hk : '<' ∉ k) :
    scanElemFull tuOpenL tuCloseL (pre ++ (mkTU s t k ++ rest)) =
      some ⟨pre, [], tuInner s t k, rest⟩ := by
  have hshape : mkTU s t k ++ rest =
      tuOpenL ++ ('>' :: (tuInner s t k ++ (tuCloseL ++ rest))) := by
    simp [mkTU, tagTU_eq, List.append_assoc]
  have h1 : splitFirst tuOpenL (pre ++ (mkTU s t k ++ rest)) =
      some (pre, mkTU s t k ++ rest) := by
    rw [sf_skip2 tuOpenL pre _ (by decide) hpre, hshape, sf_found]
    simp [hshape]
  have h2 : (mkTU s t k ++ rest).drop tuOpenL.length =
      '>' :: (tuInner s t k ++ (tuCloseL ++ rest)) := by
    rw [hshape, List.drop_left]
  have h3 : splitFirst ['>'] ('>' :: (tuInner s t k ++ (tuCloseL ++ rest))) =
      some ([], '>' :: (tuInner s t k ++ (tuCloseL ++ rest))) := by
    have := sf_found ['>'] (tuInner s t k ++ (tuCloseL ++ rest))
    simpa using this
  rw [scanElemFull, h1]
  simp only [Option.some_bind, h2, h3, List.drop_one, List.tail_cons]
  rw [walk_close_tu s t k rest hs ht hk]
  simp [List.drop_left]

theorem sf_none2 (p a : Str) (hp : p.head? = some '<') (ha : '<' ∉ a) :
    splitFirst p a = none := by
  cases p with
  | nil => simp at hp
  | cons ph pt =>
    have : ph = '<' := by simpa using hp
    subst this
    exact sf_none '<' pt a ha

theorem scanElem_rest_lt (o c s : Str) (e : ElemScan)
    (h : scanElemFull o c s = some e) : e.rest.length < s.length := by
  unfold scanElemFull at h
  cases h1 : splitFirst o s with
  | none => rw [h1] at h; simp at h
  | some ab =>
    rw [h1] at h
    simp only [Option.some_bind] at h
    cases h2 : splitFirst ['>'] (ab.2.drop o.length) with
    | none => rw [h2] at h; simp at h
    | some de =>
      rw [h2] at h
      simp only [Option.some_bind] at h
      cases h3 : splitFirst c (de.2.drop 1) with
      | none => rw [h3] at h; simp at h
      | some gh =>
        rw [h3] at h
        simp only [Option.map_some'] at h
        have he : e.rest = gh.2.drop c.length := by
          cases h; rfl
        obtain ⟨hs1, _⟩ := sf_parts o s ab.1 ab.2 (by rw [h1])
        obtain ⟨hs2, hpo2⟩ :=
          sf_parts ['>'] (ab.2.drop o.length) de.1 de.2 (by rw [h2])
        obtain ⟨hs3, _⟩ := sf_parts c (de.2.drop 1) gh.1 gh.2 (by rw [h3])
        have hde2 : de.2 ≠ [] := by
          intro hh; rw [hh] at hpo2; simp [ipo] at hpo2
        have l1 : e.rest.length ≤ gh.2.length := by
          rw [he]; exact (List.length_drop ..).le.trans (Nat.sub_le _ _)
        have l2 : gh.2.length ≤ (de.2.drop 1).length := by
          rw [hs3]; simp
        have l3 : (de.2.drop 1).length < de.2.length := by
          rw [List.length_drop]
          have := List.length_pos.mpr hde2
          omega
        have l4 : de.2.length ≤ (ab.2.drop o.length).length := by
          rw [hs2]; simp
        have l5 : (ab.2.drop o.length).length ≤ ab.2.length := by
          rw [List.length_drop]; omega
        have l6 : ab.2.length ≤ s.length := by
          rw [hs1]; simp
        omega

theorem findAllGo_none (o c s : Str) (n : Nat)
    (h : scanElemFull o c s = none) : findAllGo o c (n + 1) s = [] := by
  simp [findAllGo, h]

theorem findAllGo_some (o c s : Str) (n : Nat) (e : ElemScan)
    (h : scanElemFull o c s = some e) :
    findAllGo o c (n + 1) s = e.whole o c :: findAllGo o c n e.rest := by
  simp [findAllGo, h]

theorem findAllGo_fuel (o c : Str) :
    ∀ n m s, s.length < n → s.length < m →
      findAllGo o c n s = findAllGo o c m s := by
  intro n
  induction n with
  | zero => intro m s h1 _; omega
  | succ n ih =>
    intro m s h1 h2
    cases m with
    | zero => omega
    | succ m =>
      cases he : scanElemFull o c s with
      | none => rw [findAllGo_none o c s n he, findAllGo_none o c s m he]
      | some e =>
        have hlt := scanElem_rest_lt o c s e he
        rw [findAllGo_some o c s n e he, findAllGo_some o c s m e he,
          ih m e.rest (by omega) (by omega)]

theorem findAll_step (pre s t k rest : Str) (hpre : '<' ∉ pre)
    (hs : '<' ∉ s) (ht : '<' ∉ t) (hk : '<' ∉ k) :
    findAllElems tuOpenL tuCloseL (pre ++ (mkTU s t k ++ rest)) =
      mkTU s t k :: findAllElems tuOpenL tuCloseL rest := by
  have hwhole : (⟨pre, [], tuInner s t k, rest⟩ : ElemScan).whole tuOpenL tuCloseL =
      mkTU s t k := by
    simp [ElemScan.whole, mkTU, tagTU_eq, List.append_assoc]
  rw [findAllElems,
    findAllGo_some tuOpenL tuCloseL _ _ _ (scanElem_mkTU pre s t k rest hpre hs ht hk),
    hwhole]
  have hlen : rest.length < (pre ++ (mkTU s t k ++ rest)).length := by
    simp only [List.length_append, mkTU, tagTU, tuInner]
    simp [tagSrcO]
    omega
  rw [findAllGo_fuel tuOpenL tuCloseL _ (rest.length + 1) rest (by omega) (by omega)]
  rfl

theorem findAll_nil (a : Str) (ha : '<' ∉ a) :
    findAllElems tuOpenL tuCloseL a = [] := by
  rw [findAllElems, findAllGo_none]
  rw [scanElemFull, sf_none2 tuOpenL a (by decide) ha]
  rfl

theorem tagCgO_eq : tagCgO = cgOpenL ++ ['>'] := by decide

theorem scanElemCg_mkTU (s t k : Str)
    (hs : '<' ∉ s) (ht : '<' ∉ t) (hk : '<' ∉ k) :
    scanElemFull cgOpenL cgCloseL (mkTU s t k) =
      some ⟨tagTU ++ (tagSrcO ++ (s ++ (srcCloseL ++ (tagTgO ++ (t ++ tgCloseL))))),
        [], tagCtxK ++ (k ++ tagCtxC), tuCloseL⟩ := by
  have hshape : mkTU s t k =
      (tagTU ++ (tagSrcO ++ (s ++ (srcCloseL ++ (tagTgO ++ (t ++ tgCloseL)))))) ++
        (cgOpenL ++ ('>' :: (tagCtxK ++ (k ++ (tagCtxC ++ (cgCloseL ++ tuCloseL)))))) := by
    simp [mkTU, tuInner, tagCgO_eq, List.append_assoc]
  have h1 : splitFirst cgOpenL (mkTU s t k) =
      some (tagTU ++ (tagSrcO ++ (s ++ (srcCloseL ++ (tagTgO ++ (t ++ tgCloseL))))),
        cgOpenL ++ ('>' :: (tagCtxK ++ (k ++ (tagCtxC ++ (cgCloseL ++ tuCloseL)))))) := by
    rw [hshape]
    simp only [List.append_assoc]
    rw [sf_tag2 cgOpenL tagTU _ (by decide) (by decide) (by decide) (by decide),
      sf_tag2 cgOpenL tagSrcO _ (by decide) (by decide) (by decide) (by decide),
      sf_skip2 cgOpenL s _ (by decide) hs,
      sf_tag2 cgOpenL srcCloseL _ (by decide) (by decide) (by decide) (by decide),
      sf_tag2 cgOpenL tagTgO _ (by decide) (by decide) (by decide) (by decide),
      sf_skip2 cgOpenL t _ (by decide) ht,
      sf_tag2 cgOpenL tgCloseL _ (by decide) (by decide) (by decide) (by decide),
      sf_found]
    simp [List.append_assoc]
  rw [scanElemFull, h1]
  simp only [Option.some_bind]
  rw [List.drop_left]
  have h3 : splitFirst ['>'] ('>' :: (tagCtxK ++ (k ++ (tagCtxC ++ (cgCloseL ++ tuCloseL))))) =
      some ([], '>' :: (tagCtxK ++ (k ++ (tagCtxC ++ (cgCloseL ++ tuCloseL))))) := by
    simpa using sf_found ['>'] (tagCtxK ++ (k ++ (tagCtxC ++ (cgCloseL ++ tuCloseL))))
  rw [h3]
  simp only [Option.some_bind, List.drop_one, List.tail_cons]
  have h4 : splitFirst cgCloseL (tagCtxK ++ (k ++ (tagCtxC ++ (cgCloseL ++ tuCloseL)))) =
      some (tagCtxK ++ (k ++ tagCtxC), cgCloseL ++ tuCloseL) := by
    rw [sf_tag2 cgCloseL tagCtxK _ (by decide) (by decide) (by decide) (by decide),
      sf_skip2 cgCloseL k _ (by decide) hk,
      sf_tag2 cgCloseL tagCtxC _ (by decide) (by decide) (by decide) (by decide),
      sf_found]
    simp [List.append_assoc]
  rw [h4]
  simp [List.drop_left]

theorem scanCtxGo_found (typeLit : Str) (n : Nat) (s a b cdrop ws : Str)
    (h1 : splitFirst (("<context").data) s = some (a, b))
    (h2 : b.drop 8 = cdrop)
    (h3 : cdrop.takeWhile isPySpace = ws) (hws : ws ≠ [])
    (h4 : ipo typeLit (cdrop.drop ws.length) = true)
    (d e g hh : Str)
    (h5 : splitFirst ['>'] (cdrop.drop (ws.length + typeLit.length)) =
      some (d, e))
    (h6 : splitFirst (("</context>").data) e.tail = some (g, hh)) :
    scanCtxGo typeLit (n + 1) s = some g := by
  simp [scanCtxGo, h1, h2, h3, hws, h4, h5, h6]

theorem scanCtxGo_none (typeLit : Str) (n : Nat) (s : Str)
    (h : splitFirst (("<context").data) s = none) :
    scanCtxGo typeLit (n + 1) s = none := by
  simp [scanCtxGo, h]

theorem scanCtxGo_retry_lit (typeLit : Str) (n : Nat) (s a b cdrop ws : Str)
    (h1 : splitFirst (("<context").data) s = some (a, b))
    (h2 : b.drop 8 = cdrop)
    (h3 : cdrop.takeWhile isPySpace = ws) (hws : ws ≠ [])
    (h4 : ipo typeLit (cdrop.drop ws.length) = false) :
    scanCtxGo typeLit (n + 1) s = scanCtxGo typeLit n (b.drop 1) := by
  simp [scanCtxGo, h1, h2, h3, hws, h4]

theorem ctxInner_key (k : Str) (hk : '<' ∉ k) (n : Nat) :
    scanCtxGo keyTypeL (n + 1) (tagCtxK ++ (k ++ tagCtxC)) = some k := by
  have htk : tagCtxK = ("<context").data ++ (' ' :: (keyTypeL ++ ['>'])) := by
    decide
  have hshape : tagCtxK ++ (k ++ tagCtxC) =
      ("<context").data ++ (' ' :: (keyTypeL ++ ('>' :: (k ++ tagCtxC)))) := by
    rw [htk]; simp [List.append_assoc]
  rw [hshape]
  have h1 : splitFirst (("<context").data)
      (("<context").data ++ (' ' :: (keyTypeL ++ ('>' :: (k ++ tagCtxC))))) =
      some ([], ("<context").data ++ (' ' :: (keyTypeL ++ ('>' :: (k ++ tagCtxC))))) :=
    sf_found _ _
  have h2 : (("<context").data ++
      (' ' :: (keyTypeL ++ ('>' :: (k ++ tagCtxC))))).drop 8 =
      ' ' :: (keyTypeL ++ ('>' :: (k ++ tagCtxC))) := by
    rw [List.drop_left' (by decide)]
  have hkeyc : keyTypeL = 'c' :: ("ontext-type=\"x-key\"").data := by decide
  have h3 : (' ' :: (keyTypeL ++ ('>' :: (k ++ tagCtxC)))).takeWhile isPySpace =
      [' '] := by
    rw [hkeyc]
    simp only [List.cons_append, List.takeWhile_cons,
      show isPySpace ' ' = true by decide, show isPySpace 'c' = false by decide]
    simp
  have h4 : ipo keyTypeL
      ((' ' :: (keyTypeL ++ ('>' :: (k ++ tagCtxC)))).drop 1) = true := by
    simpa using ipo_self_app keyTypeL ('>' :: (k ++ tagCtxC))
  have h5 : splitFirst ['>']
      ((' ' :: (keyTypeL ++ ('>' :: (k ++ tagCtxC)))).drop (1 + keyTypeL.length)) =
      some ([], '>' :: (k ++ tagCtxC)) := by
    have hd : (' ' :: (keyTypeL ++ ('>' :: (k ++ tagCtxC)))).drop (1 + keyTypeL.length) =
        '>' :: (k ++ tagCtxC) := by
      have : (1 : Nat) + keyTypeL.length = ([' '] ++ keyTypeL).length := by
        simp [Nat.add_comm]
      rw [this, show (' ' :: (keyTypeL ++ ('>' :: (k ++ tagCtxC)))) =
        ([' '] ++ keyTypeL) ++ ('>' :: (k ++ tagCtxC)) by simp, List.drop_left]
    rw [hd]
    simpa using sf_found ['>'] (k ++ tagCtxC)
  have h6 : splitFirst (("</context>").data) (('>' :: (k ++ tagCtxC)).tail) =
      some (k, tagCtxC) := by
    simp only [List.tail_cons]
    rw [sf_skip2 _ k _ (by decide) hk]
    rw [show tagCtxC = ("</context>").data ++ [] by decide, sf_found]
    simp
  exact scanCtxGo_found keyTypeL n _ [] _ _ [' '] h1 h2 h3 (by simp) h4 [] _ k tagCtxC h5 h6

theorem sf_empty (p : Str) (hp : p.head? = some '<') :
    splitFirst p [] = none := by
  cases p with
  | nil => simp at hp
  | cons ph pt => rfl

theorem sf_last_tag_none (p tag : Str) (hp : p.head? = some '<')
    (htag1 : tag.head? = some '<') (htag2 : '<' ∉ tag.tail)
    (hconf : conflict p tag = true) :
    splitFirst p tag = none := by
  have h := sf_tag2 p tag [] hp htag1 htag2 hconf
  rw [List.append_nil] at h
  rw [h, sf_empty p hp]
  rfl

theorem replaceAllGo_none (p r B : Str) (h : splitFirst p B = none) :
    ∀ n, replaceAllGo p r n B = B := by
  intro n
  cases n with
  | zero => rfl
  | succ n => simp [replaceAllGo, h]

theorem replaceAll_single (s P R A B : Str) (hP : P ≠ [])
    (h1 : splitFirst P s = some (A, P ++ B)) (h2 : splitFirst P B = none) :
    replaceAll s P R = A ++ (R ++ B) := by
  rw [replaceAll, if_neg hP]
  simp only [replaceAllGo, h1]
  rw [List.drop_left, replaceAllGo_none P R B h2]
  simp [List.append_assoc]

theorem ctxInner_note_none (k : Str) (hk : '<' ∉ k) (n : Nat) :
    scanCtxGo noteTypeL (n + 2) (tagCtxK ++ (k ++ tagCtxC)) = none := by
  have htk : tagCtxK = ("<context").data ++ (' ' :: (keyTypeL ++ ['>'])) := by
    decide
  have hshape : tagCtxK ++ (k ++ tagCtxC) =
      ("<context").data ++ (' ' :: (keyTypeL ++ ('>' :: (k ++ tagCtxC)))) := by
    rw [htk]; simp [List.append_assoc]
  rw [hshape]
  have h1 := sf_found (("<context").data)
    (' ' :: (keyTypeL ++ ('>' :: (k ++ tagCtxC))))
  have h2 : (("<context").data ++
      (' ' :: (keyTypeL ++ ('>' :: (k ++ tagCtxC))))).drop 8 =
      ' ' :: (keyTypeL ++ ('>' :: (k ++ tagCtxC))) := by
    rw [List.drop_left' (by decide)]
  have hkeyc : keyTypeL = 'c' :: ("ontext-type=\"x-key\"").data := by decide
  have h3 : (' ' :: (keyTypeL ++ ('>' :: (k ++ tagCtxC)))).takeWhile isPySpace =
      [' '] := by
    rw [hkeyc]
    simp only [List.cons_append, List.takeWhile_cons,
      show isPySpace ' ' = true by decide, show isPySpace 'c' = false by decide]
    simp
  have h4 : ipo noteTypeL
      ((' ' :: (keyTypeL ++ ('>' :: (k ++ tagCtxC)))).drop 1) = false := by
    simp only [List.drop_one, List.tail_cons]
    exact npf_of_conflict1 noteTypeL keyTypeL ('>' :: (k ++ tagCtxC)) (by decide)
  rw [scanCtxGo_retry_lit noteTypeL (n + 1) _ [] _ _ [' '] h1 h2 h3 (by simp) h4]
  have hdrop : (("<context").data ++
      (' ' :: (keyTypeL ++ ('>' :: (k ++ tagCtxC))))).drop 1 =
      (("context").data ++ (' ' :: (keyTypeL ++ ['>']))) ++ (k ++ tagCtxC) := by
    rw [show ("<context").data = '<' :: ("context").data by decide]
    simp [List.append_assoc]
  rw [hdrop]
  apply scanCtxGo_none
  rw [sf_skip2 _ _ _ (by decide) (by decide),
    sf_skip2 _ k _ (by decide) hk,
    sf_last_tag_none _ tagCtxC (by decide) (by decide) (by decide) (by decide)]
  rfl

theorem tagCtxC_eq_lit : tagCtxC = ("</context>").data := by decide

theorem scanCtx_key_mkTU (k : Str) (hk : '<' ∉ k) :
    scanCtx keyTypeL (tagCtxK ++ (k ++ tagCtxC)) = some k := by
  rw [scanCtx]
  exact ctxInner_key k hk _

theorem scanCtx_note_mkTU (k : Str) (hk : '<' ∉ k) :
    scanCtx noteTypeL (tagCtxK ++ (k ++ tagCtxC)) = none := by
  rw [scanCtx]
  have hlen : (tagCtxK ++ (k ++ tagCtxC)).length + 1 =
      ((tagCtxK ++ (k ++ tagCtxC)).length - 1) + 2 := by
    simp [tagCtxK]
  rw [hlen]
  exact ctxInner_note_none k hk _

theorem resolveUnitContext_mkTU (s t k gk gn : Str)
    (hs : '<' ∉ s) (ht : '<' ∉ t) (hk : '<' ∉ k) :
    resolveUnitContext (mkTU s t k) gk gn = (pystrip k, gn) := by
  rw [resolveUnitContext, scanElemCg_mkTU s t k hs ht hk]
  simp only
  rw [scanCtx_key_mkTU k hk, scanCtx_note_mkTU k hk]

theorem tuKeyFirstPass_mkTU (s t k : Str)
    (hs : '<' ∉ s) (ht : '<' ∉ t) (hk : '<' ∉ k) :
    tuKeyFirstPass (mkTU s t k) = some (pystrip k) := by
  rw [tuKeyFirstPass, scanElemCg_mkTU s t k hs ht hk]
  simp only
  rw [scanCtx_key_mkTU k hk]
  rfl

theorem mkTU_head : ∀ (s t k : Str), (mkTU s t k).head? = some '<' := by
  intro s t k; rfl

theorem sf_skip_mkTU_np (p : Str) (s t k b : Str) (hp : p.head? = some '<')
    (hnp : ipo p (mkTU s t k ++ b) = false)
    (c2 : conflict p tagSrcO = true) (c3 : conflict p srcCloseL = true)
    (c4 : conflict p tagTgO = true) (c5 : conflict p tgCloseL = true)
    (c6 : conflict p tagCgO = true) (c7 : conflict p tagCtxK = true)
    (c8 : conflict p tagCtxC = true) (c9 : conflict p cgCloseL = true)
    (c10 : conflict p tuCloseL = true)
    (hs : '<' ∉ s) (ht : '<' ∉ t) (hk : '<' ∉ k) :
    splitFirst p (mkTU s t k ++ b) =
      (splitFirst p b).map fun r => (mkTU s t k ++ r.1, r.2) := by
  have hshape : mkTU s t k ++ b =
      tagTU ++ (tagSrcO ++ (s ++ (srcCloseL ++ (tagTgO ++ (t ++ (tgCloseL ++
        (tagCgO ++ (tagCtxK ++ (k ++ (tagCtxC ++ (cgCloseL ++
        (tuCloseL ++ b)))))))))))) := by
    simp [mkTU, tuInner, List.append_assoc]
  rw [hshape] at hnp ⊢
  rw [sf_tagNP p tagTU _ hp (by decide) (by decide) hnp,
    sf_tag2 p tagSrcO _ hp (by decide) (by decide) c2,
    sf_skip2 p s _ hp hs,
    sf_tag2 p srcCloseL _ hp (by decide) (by decide) c3,
    sf_tag2 p tagTgO _ hp (by decide) (by decide) c4,
    sf_skip2 p t _ hp ht,
    sf_tag2 p tgCloseL _ hp (by decide) (by decide) c5,
    sf_tag2 p tagCgO _ hp (by decide) (by decide) c6,
    sf_tag2 p tagCtxK _ hp (by decide) (by decide) c7,
    sf_skip2 p k _ hp hk,
    sf_tag2 p tagCtxC _ hp (by decide) (by decide) c8,
    sf_tag2 p cgCloseL _ hp (by decide) (by decide) c9,
    sf_tag2 p tuCloseL _ hp (by decide) (by decide) c10]
  cases splitFirst p b <;> simp [mkTU, tuInner, List.append_assoc]

theorem ipo_tu1_tu2_false (s t k1 k2 b : Str) (hne : k1 ≠ k2)
    (hk1 : '<' ∉ k1) (hk2 : '<' ∉ k2) :
    ipo (mkTU s t k1) (mkTU s t k2 ++ b) = false := by
  have e1 : mkTU s t k1 =
      (tagTU ++ (tagSrcO ++ (s ++ (srcCloseL ++ (tagTgO ++ (t ++ (tgCloseL ++
        (tagCgO ++ tagCtxK)))))))) ++
      (k1 ++ ('<' :: (("/context>").data ++ (cgCloseL ++ tuCloseL)))) := by
    simp only [mkTU, tuInner, show tagCtxC = '<' :: ("/context>").data by decide,
      List.append_assoc, List.cons_append]
  have e2 : mkTU s t k2 ++ b =
      (tagTU ++ (tagSrcO ++ (s ++ (srcCloseL ++ (tagTgO ++ (t ++ (tgCloseL ++
        (tagCgO ++ tagCtxK)))))))) ++
      (k2 ++ ('<' :: (("/context>").data ++ (cgCloseL ++ (tuCloseL ++ b))))) := by
    simp only [mkTU, tuInner, show tagCtxC = '<' :: ("/context>").data by decide,
      List.append_assoc, List.cons_append]
  rw [e1, e2, ipo_cancel]
  exact key_mismatch k1 k2 _ _ hne hk1 hk2

theorem sf_skip_mkTU (p : Str) (s t k b : Str) (hp : p.head? = some '<')
    (c1 : conflict p tagTU = true)
    (c2 : conflict p tagSrcO = true) (c3 : conflict p srcCloseL = true)
    (c4 : conflict p tagTgO = true) (c5 : conflict p tgCloseL = true)
    (c6 : conflict p tagCgO = true) (c7 : conflict p tagCtxK = true)
    (c8 : conflict p tagCtxC = true) (c9 : conflict p cgCloseL = true)
    (c10 : conflict p tuCloseL = true)
    (hs : '<' ∉ s) (ht : '<' ∉ t) (hk : '<' ∉ k) :
    splitFirst p (mkTU s t k ++ b) =
      (splitFirst p b).map fun r => (mkTU s t k ++ r.1, r.2) := by
  apply sf_skip_mkTU_np p s t k b hp _ c2 c3 c4 c5 c6 c7 c8 c9 c10 hs ht hk
  have hshape : mkTU s t k ++ b = tagTU ++ (tuInner s t k ++ (tuCloseL ++ b)) := by
    simp [mkTU, List.append_assoc]
  rw [hshape]
  exact npf_of_conflict1 p tagTU _ c1

theorem tagTgO_eq : tagTgO = tgOpenL ++ ['>'] := by decide


theorem scanElemTg_mkTU (s t k : Str)
    (hs : '<' ∉ s) (ht : '<' ∉ t) (hk : '<' ∉ k) :
    scanElemFull tgOpenL tgCloseL (mkTU s t k) =
      some ⟨tagTU ++ (tagSrcO ++ (s ++ srcCloseL)), [], t, tgTail k⟩ := by
  have hshape : mkTU s t k =
      (tagTU ++ (tagSrcO ++ (s ++ srcCloseL))) ++
        (tgOpenL ++ ('>' :: (t ++ (tgCloseL ++ tgTail k)))) := by
    simp [mkTU, tuInner, tgTail, tagTgO_eq, List.append_assoc]
  have h1 : splitFirst tgOpenL (mkTU s t k) =
      some (tagTU ++ (tagSrcO ++ (s ++ srcCloseL)),
        tgOpenL ++ ('>' :: (t ++ (tgCloseL ++ tgTail k)))) := by
    rw [hshape]
    simp only [List.append_assoc]
    rw [sf_tag2 tgOpenL tagTU _ (by decide) (by decide) (by decide) (by decide),
      sf_tag2 tgOpenL tagSrcO _ (by decide) (by decide) (by decide) (by decide),
      sf_skip2 tgOpenL s _ (by decide) hs,
      sf_tag2 tgOpenL srcCloseL _ (by decide) (by decide) (by decide) (by decide),
      sf_found]
    simp [List.append_assoc]
  rw [scanElemFull, h1]
  simp only [Option.some_bind]
  rw [List.drop_left]
  have h3 : splitFirst ['>'] ('>' :: (t ++ (tgCloseL ++ tgTail k))) =
      some ([], '>' :: (t ++ (tgCloseL ++ tgTail k))) := by
    simpa using sf_found ['>'] (t ++ (tgCloseL ++ tgTail k))
  rw [h3]
  simp only [Option.some_bind, List.drop_one, List.tail_cons]
  have h4 : splitFirst tgCloseL (t ++ (tgCloseL ++ tgTail k)) =
      some (t, tgCloseL ++ tgTail k) := by
    rw [sf_skip2 tgCloseL t _ (by decide) ht, sf_found]
    simp
  rw [h4]
  simp [List.drop_left]

theorem sf_tgWhole_mkTU (s t k : Str)
    (hs : '<' ∉ s) (ht : '<' ∉ t) (hk : '<' ∉ k) :
    splitFirst (tagTgO ++ (t ++ tgCloseL)) (mkTU s t k) =
      some (tagTU ++ (tagSrcO ++ (s ++ srcCloseL)),
        (tagTgO ++ (t ++ tgCloseL)) ++ tgTail k) := by
  have hshape : mkTU s t k =
      tagTU ++ (tagSrcO ++ (s ++ (srcCloseL ++
        ((tagTgO ++ (t ++ tgCloseL)) ++ tgTail k)))) := by
    simp [mkTU, tuInner, tgTail, List.append_assoc]
  rw [hshape]
  rw [sf_tag2 _ tagTU _ (by rfl) (by decide) (by decide) (by rfl),
    sf_tag2 _ tagSrcO _ (by rfl) (by decide) (by decide) (by rfl),
    sf_skip2 _ s _ (by rfl) hs,
    sf_tag2 _ srcCloseL _ (by rfl) (by decide) (by decide) (by rfl),
    sf_found]
  simp [List.append_assoc]

theorem sf_tgWhole_tail_none (t k : Str) (ht : '<' ∉ t) (hk : '<' ∉ k) :
    splitFirst (tagTgO ++ (t ++ tgCloseL)) (tgTail k) = none := by
  have hshape : tgTail k =
      tagCgO ++ (tagCtxK ++ (k ++ (tagCtxC ++ (cgCloseL ++ (tuCloseL ++ []))))) := by
    simp [tgTail]
  rw [hshape]
  rw [sf_tag2 _ tagCgO _ (by rfl) (by decide) (by decide) (by rfl),
    sf_tag2 _ tagCtxK _ (by rfl) (by decide) (by decide) (by rfl),
    sf_skip2 _ k _ (by rfl) hk,
    sf_tag2 _ tagCtxC _ (by rfl) (by decide) (by decide) (by rfl),
    sf_tag2 _ cgCloseL _ (by rfl) (by decide) (by decide) (by rfl),
    sf_tag2 _ tuCloseL _ (by rfl) (by decide) (by decide) (by rfl),
    sf_empty _ (by rfl)]
  rfl

theorem findMarkerGo_none (n : Nat) (s : Str)
    (h : splitFirst markerPfx s = none) :
    findMarkerGo (n + 1) s = none := by
  simp [findMarkerGo, h]

theorem findMarkerGo_found (n : Nat) (s a b d e : Str)
    (h1 : splitFirst markerPfx s = some (a, b))
    (h2 : splitFirst ['>'] (b.drop markerPfx.length) = some (d, e))
    (h3 : 2 ≤ d.length ∧ d.drop (d.length - 2) = ("--").data) :
    findMarkerGo (n + 1) s = some (a, e.drop 1) := by
  simp [findMarkerGo, h1, h2, h3]

theorem findMarkerGo_nogt (n : Nat) (s a b : Str)
    (h1 : splitFirst markerPfx s = some (a, b))
    (h2 : splitFirst ['>'] (b.drop markerPfx.length) = none) :
    findMarkerGo (n + 1) s = none := by
  simp [findMarkerGo, h1, h2]

theorem findMarkerGo_retry (n : Nat) (s a b d e : Str)
    (h1 : splitFirst markerPfx s = some (a, b))
    (h2 : splitFirst ['>'] (b.drop markerPfx.length) = some (d, e))
    (h3 : ¬ (2 ≤ d.length ∧ d.drop (d.length - 2) = ("--").data)) :
    findMarkerGo (n + 1) s =
      match findMarkerGo n (b.drop 1) with
      | none => none
      | some (a2, r2) => some (a ++ b.take 1 ++ a2, r2) := by
  simp [findMarkerGo, h1, h2, h3]

theorem findMarkerGo_rest_lt : ∀ (n : Nat) (s a r : Str),
    findMarkerGo n s = some (a, r) → r.length < s.length := by
  intro n
  induction n with
  | zero => intro s a r h; simp [findMarkerGo] at h
  | succ n ih =>
    intro s a r h
    cases h1 : splitFirst markerPfx s with
    | none => rw [findMarkerGo_none n s h1] at h; cases h
    | some ab =>
      obtain ⟨a1, b1⟩ := ab
      obtain ⟨hs1, hpo1⟩ := sf_parts markerPfx s a1 b1 h1
      have hb1 : b1 ≠ [] := by
        intro hh; rw [hh] at hpo1; simp [markerPfx, ipo] at hpo1
      cases h2 : splitFirst ['>'] (b1.drop markerPfx.length) with
      | none => rw [findMarkerGo_nogt n s a1 b1 h1 h2] at h; cases h
      | some de =>
        obtain ⟨d, e⟩ := de
        obtain ⟨hs2, hpo2⟩ :=
          sf_parts ['>'] (b1.drop markerPfx.length) d e h2
        have hde2 : e ≠ [] := by
          intro hh; rw [hh] at hpo2; simp [ipo] at hpo2
        by_cases h3 : 2 ≤ d.length ∧ d.drop (d.length - 2) = ("--").data
        · rw [findMarkerGo_found n s a1 b1 d e h1 h2 h3] at h
          simp only [Option.some.injEq, Prod.mk.injEq] at h
          obtain ⟨rfl, hr⟩ := h
          have l1 : r.length ≤ e.length - 1 := by
            rw [← hr, List.length_drop]
          have l2 : e.length ≤ (b1.drop markerPfx.length).length := by
            rw [hs2]; simp
          have l4 : b1.length ≤ s.length := by rw [hs1]; simp
          have l5 : 0 < e.length := List.length_pos.mpr hde2
          have l7 : (b1.drop markerPfx.length).length =
              b1.length - markerPfx.length := by simp
          omega
        · rw [findMarkerGo_retry n s a1 b1 d e h1 h2 h3] at h
          cases h4 : findMarkerGo n (b1.drop 1) with
          | none => rw [h4] at h; cases h
          | some a2r2 =>
            obtain ⟨a2, r2⟩ := a2r2
            rw [h4] at h
            simp only [Option.some.injEq, Prod.mk.injEq] at h
            obtain ⟨_, hr⟩ := h
            have hrr : r.length = r2.length := by rw [hr]
            have hih := ih (b1.drop 1) a2 r2 h4
            have l1 : (b1.drop 1).length = b1.length - 1 := by simp
            have l2 : b1.length ≤ s.length := by rw [hs1]; simp
            have l3 : 0 < b1.length := List.length_pos.mpr hb1
            omega

theorem reSubGo_none (n : Nat) (s : Str)
    (h : findMarkerGo (s.length + 1) s = none) :
    reSubGo (n + 1) s = s := by
  simp [reSubGo, h]

theorem reSubGo_step (n : Nat) (s a r : Str)
    (h : findMarkerGo (s.length + 1) s = some (a, r)) :
    reSubGo (n + 1) s = a ++ reSubGo n r := by
  simp [reSubGo, h]

theorem reSubGo_fuel : ∀ (n m : Nat) (s : Str),
    s.length < n → s.length < m → reSubGo n s = reSubGo m s := by
  intro n
  induction n with
  | zero => intro m s h1 _; omega
  | succ n ih =>
    intro m s h1 h2
    cases m with
    | zero => omega
    | succ m =>
      cases he : findMarkerGo (s.length + 1) s with
      | none => rw [reSubGo_none n s he, reSubGo_none m s he]
      | some ar =>
        have hlt := findMarkerGo_rest_lt (s.length + 1) s ar.1 ar.2 (by rw [he])
        rw [reSubGo_step n s ar.1 ar.2 (by rw [he]),
          reSubGo_step m s ar.1 ar.2 (by rw [he]),
          ih m ar.2 (by omega) (by omega)]

theorem dictLookup_single_hit (k : Str) (v : Str × Str) :
    dictLookup [(k, v)] k = some v := by
  simp [dictLookup]

theorem dictLookup_single_miss (k k' : Str) (v : Str × Str) (h : k ≠ k') :
    dictLookup [(k, v)] k' = none := by
  simp [dictLookup, List.find?, beq_eq_false_iff_ne.mpr h]

theorem tgWhole_eq (t : Str) :
    (⟨[], [], t, []⟩ : ElemScan).whole tgOpenL tgCloseL =
      tagTgO ++ (t ++ tgCloseL) := by
  simp [ElemScan.whole, tagTgO_eq, List.append_assoc]

theorem mkTU_ne_nil (s t k : Str) : mkTU s t k ≠ [] := by
  intro h
  have : (mkTU s t k).length = 0 := by rw [h]; rfl
  rw [mkTU] at this
  simp [tagTU] at this

theorem firstPass_tu1 (pre mid post s t k1 k2 new : Str)
    (hpre : '<' ∉ pre) (hmid : '<' ∉ mid) (hpost : '<' ∉ post)
    (hs : '<' ∉ s) (ht : '<' ∉ t) (hk1 : '<' ∉ k1) (hk2 : '<' ∉ k2)
    (hnew : '<' ∉ new)
    (hk1s : pystrip k1 = k1) (hne : k1 ≠ k2) :
    firstPassStep [(k1, (new, t))]
      (pre ++ (mkTU s t k1 ++ (mid ++ (mkTU s t k2 ++ post))), [])
      (0, mkTU s t k1) =
      (pre ++ ((markerStart 0 ++ mkTU s new k1 ++ markerEnd 0) ++
        (mid ++ (mkTU s t k2 ++ post))), [k1]) := by
  rw [firstPassStep, tuKeyFirstPass_mkTU s t k1 hs ht hk1, hk1s]
  simp only [dictLookup_single_hit]
  rw [scanElemTg_mkTU s t k1 hs ht hk1]
  simp only
  have hwhole : ElemScan.whole tgOpenL tgCloseL
      ⟨tagTU ++ (tagSrcO ++ (s ++ srcCloseL)), [], t, tgTail k1⟩ =
      tagTgO ++ (t ++ tgCloseL) := by
    simp [ElemScan.whole, tagTgO_eq, List.append_assoc]
  rw [hwhole]
  have hutu : replaceAll (mkTU s t k1) (tagTgO ++ (t ++ tgCloseL))
      (tgOpenL ++ [] ++ ['>'] ++ new ++ tgCloseL) = mkTU s new k1 := by
    rw [replaceAll_single (mkTU s t k1) (tagTgO ++ (t ++ tgCloseL))
      (tgOpenL ++ [] ++ ['>'] ++ new ++ tgCloseL)
      (tagTU ++ (tagSrcO ++ (s ++ srcCloseL))) (tgTail k1)
      (by simp [tagTgO_eq])
      (sf_tgWhole_mkTU s t k1 hs ht hk1)
      (sf_tgWhole_tail_none t k1 ht hk1)]
    simp [mkTU, tuInner, tgTail, tagTgO_eq, List.append_assoc]
  rw [hutu]
  have hx1 : replaceAll (pre ++ (mkTU s t k1 ++ (mid ++ (mkTU s t k2 ++ post))))
      (mkTU s t k1) (markerStart 0 ++ mkTU s t k1 ++ markerEnd 0) =
      pre ++ ((markerStart 0 ++ mkTU s t k1 ++ markerEnd 0) ++
        (mid ++ (mkTU s t k2 ++ post))) := by
    rw [replaceAll_single _ _ _ pre (mid ++ (mkTU s t k2 ++ post))
      (mkTU_ne_nil s t k1)]
    · rw [sf_skip2 (mkTU s t k1) pre _ (mkTU_head s t k1) hpre, sf_found]
      simp
    · rw [sf_skip2 (mkTU s t k1) mid _ (mkTU_head s t k1) hmid,
        sf_skip_mkTU_np (mkTU s t k1) s t k2 post (mkTU_head s t k1)
          (ipo_tu1_tu2_false s t k1 k2 post hne hk1 hk2)
          (by rfl) (by rfl) (by rfl) (by rfl) (by rfl) (by rfl) (by rfl)
          (by rfl) (by rfl) hs ht hk2,
        sf_none2 (mkTU s t k1) post (mkTU_head s t k1) hpost]
      rfl
  rw [hx1]
  have hms : (markerStart 0 ++ mkTU s t k1 ++ markerEnd 0).head? = some '<' := by
    rfl
  have hx2 : replaceAll
      (pre ++ ((markerStart 0 ++ mkTU s t k1 ++ markerEnd 0) ++
        (mid ++ (mkTU s t k2 ++ post))))
      (markerStart 0 ++ mkTU s t k1 ++ markerEnd 0)
      (markerStart 0 ++ mkTU s new k1 ++ markerEnd 0) =
      pre ++ ((markerStart 0 ++ mkTU s new k1 ++ markerEnd 0) ++
        (mid ++ (mkTU s t k2 ++ post))) := by
    rw [replaceAll_single _ _ _ pre (mid ++ (mkTU s t k2 ++ post))
      (by intro hh
          have := congrArg List.length hh
          simp [markerStart] at this)]
    · rw [sf_skip2 _ pre _ hms hpre, sf_found]
      simp
    · rw [sf_skip2 _ mid _ hms hmid,
        sf_skip_mkTU_np _ s t k2 post hms
          (by
            have hsh : mkTU s t k2 ++ post =
                tagTU ++ (tuInner s t k2 ++ (tuCloseL ++ post)) := by
              simp [mkTU, List.append_assoc]
            rw [hsh]
            exact npf_of_conflict1 _ tagTU _ (by rfl))
          (by rfl) (by rfl) (by rfl) (by rfl) (by rfl) (by rfl) (by rfl)
          (by rfl) (by rfl) hs ht hk2,
        sf_none2 _ post hms hpost]
      rfl
  rw [hx2]
  simp [addKey]

theorem firstPass_tu2 (st : Str × List Str) (s t k1 k2 new : Str)
    (hs : '<' ∉ s) (ht : '<' ∉ t) (hk2 : '<' ∉ k2)
    (hk2s : pystrip k2 = k2) (hne : k1 ≠ k2) :
    firstPassStep [(k1, (new, t))] st (1, mkTU s t k2) = st := by
  rw [firstPassStep, tuKeyFirstPass_mkTU s t k2 hs ht hk2, hk2s]
  simp only [dictLookup_single_miss k1 k2 (new, t) hne]

theorem findMarker_completion (n : Nat) (s a Y d0 : Str)
    (hd0 : '>' ∉ d0)
    (hcond : 2 ≤ d0.length ∧ d0.drop (d0.length - 2) = ("--").data)
    (h1 : splitFirst markerPfx s = some (a, markerPfx ++ (d0 ++ ('>' :: Y)))) :
    findMarkerGo (n + 1) s = some (a, Y) := by
  have h2 : splitFirst ['>']
      ((markerPfx ++ (d0 ++ ('>' :: Y))).drop markerPfx.length) =
      some (d0, '>' :: Y) := by
    rw [List.drop_left, sf_skip '>' [] d0 _ hd0]
    rw [show ('>' :: Y) = ['>'] ++ Y by rfl, sf_found]
    simp
  have := findMarkerGo_found n s a (markerPfx ++ (d0 ++ ('>' :: Y))) d0 ('>' :: Y)
    h1 h2 hcond
  simpa using this

theorem marker0_start_split :
    markerStart 0 = markerPfx ++ (("START_0 --").data ++ ('>' :: [])) := by
  decide

theorem marker0_end_split :
    markerEnd 0 = markerPfx ++ (("END_0 --").data ++ ('>' :: [])) := by
  decide

theorem reSub_x2 (pre mid post s t k1 k2 new : Str)
    (hpre : '<' ∉ pre) (hmid : '<' ∉ mid) (hpost : '<' ∉ post)
    (hs : '<' ∉ s) (ht : '<' ∉ t) (hk1 : '<' ∉ k1) (hk2 : '<' ∉ k2)
    (hnew : '<' ∉ new) :
    reSubMarkers (pre ++ ((markerStart 0 ++ mkTU s new k1 ++ markerEnd 0) ++
        (mid ++ (mkTU s t k2 ++ post)))) =
      pre ++ (mkTU s new k1 ++ (mid ++ (mkTU s t k2 ++ post))) := by
  set R2 := mid ++ (mkTU s t k2 ++ post) with hR2
  have hshape : pre ++ ((markerStart 0 ++ mkTU s new k1 ++ markerEnd 0) ++ R2) =
      pre ++ (markerPfx ++ (("START_0 --").data ++ ('>' ::
        (mkTU s new k1 ++ (markerPfx ++ (("END_0 --").data ++ ('>' :: R2))))))) := by
    rw [marker0_start_split, marker0_end_split]
    simp [List.append_assoc]
  have hfm1 : findMarkerGo
      ((pre ++ ((markerStart 0 ++ mkTU s new k1 ++ markerEnd 0) ++ R2)).length + 1)
      (pre ++ ((markerStart 0 ++ mkTU s new k1 ++ markerEnd 0) ++ R2)) =
      some (pre, mkTU s new k1 ++ (markerPfx ++ (("END_0 --").data ++ ('>' :: R2)))) := by
    rw [hshape]
    apply findMarker_completion _ _ _ _ (("START_0 --").data) (by decide) (by decide)
    rw [sf_skip2 markerPfx pre _ (by decide) hpre, sf_found]
    simp
  have hY1 : (mkTU s new k1 ++ (markerPfx ++ (("END_0 --").data ++ ('>' :: R2)))).length <
      (pre ++ ((markerStart 0 ++ mkTU s new k1 ++ markerEnd 0) ++ R2)).length := by
    rw [hshape]
    simp [markerPfx]
    omega
  rw [reSubMarkers, reSubGo_step _ _ _ _ hfm1]
  rw [reSubGo_fuel _ ((mkTU s new k1 ++ (markerPfx ++ (("END_0 --").data ++ ('>' :: R2)))).length + 1) _
    (by omega) (by omega)]
  have hfm2 : findMarkerGo
      ((mkTU s new k1 ++ (markerPfx ++ (("END_0 --").data ++ ('>' :: R2)))).length + 1)
      (mkTU s new k1 ++ (markerPfx ++ (("END_0 --").data ++ ('>' :: R2)))) =
      some (mkTU s new k1, R2) := by
    apply findMarker_completion _ _ _ _ (("END_0 --").data) (by decide) (by decide)
    rw [sf_skip_mkTU markerPfx s new k1 _ (by decide) (by decide) (by decide)
      (by decide) (by decide) (by decide) (by decide) (by decide) (by decide)
      (by decide) (by decide) hs hnew hk1, sf_found]
    simp
  rw [reSubGo_step _ _ _ _ hfm2]
  have hfm3 : findMarkerGo (R2.length + 1) R2 = none := by
    apply findMarkerGo_none
    rw [hR2, sf_skip2 markerPfx mid _ (by decide) hmid,
      sf_skip_mkTU markerPfx s t k2 post (by decide) (by decide) (by decide)
        (by decide) (by decide) (by decide) (by decide) (by decide) (by decide)
        (by decide) (by decide) hs ht hk2,
      sf_none2 markerPfx post (by decide) hpost]
    rfl
  have hR2len : R2.length <
      (mkTU s new k1 ++ (markerPfx ++ (("END_0 --").data ++ ('>' :: R2)))).length := by
    simp [markerPfx]
    omega
  rw [reSubGo_fuel _ (R2.length + 1) _ (by omega) (by omega),
    reSubGo_none _ _ hfm3]

theorem findAll_two (pre mid post s t k1 k2 : Str)
    (hpre : '<' ∉ pre) (hmid : '<' ∉ mid) (hpost : '<' ∉ post)
    (hs : '<' ∉ s) (ht : '<' ∉ t) (hk1 : '<' ∉ k1) (hk2 : '<' ∉ k2) :
    findAllElems tuOpenL tuCloseL
      (pre ++ (mkTU s t k1 ++ (mid ++ (mkTU s t k2 ++ post)))) =
      [mkTU s t k1, mkTU s t k2] := by
  rw [findAll_step pre s t k1 _ hpre hs ht hk1,
    findAll_step mid s t k2 post hmid hs ht hk2,
    findAll_nil post hpost]

set_option maxHeartbeats 2000000 in
/-- C2: over an XML text holding two canonical trans-units with the same
source and target text but distinct keys `k1` and `k2`, editing only `k1`'s
target rewrites exactly the target element of `k1`'s span — the output is
byte-identical to the input everywhere else, including `k2`'s occurrence of
the old target text. -/
theorem update_xml_targeted (pre mid post s t k1 k2 new : Str)
    (hpre : '<' ∉ pre) (hmid : '<' ∉ mid) (hpost : '<' ∉ post)
    (hs : '<' ∉ s) (ht : '<' ∉ t) (hk1 : '<' ∉ k1) (hk2 : '<' ∉ k2)
    (hnew : '<' ∉ new)
    (hk1s : pystrip k1 = k1) (hk2s : pystrip k2 = k2)
    (hne : k1 ≠ k2) (hk1ne : k1 ≠ []) (hnewne : new ≠ t) :
    update_xml_content
      (pre ++ (mkTU s t k1 ++ (mid ++ (mkTU s t k2 ++ post))))
      [⟨false, some ⟨k1, new, t⟩⟩, ⟨false, some ⟨k2, t, t⟩⟩] =
      .ok (pre ++ (mkTU s new k1 ++ (mid ++ (mkTU s t k2 ++ post)))) := by
  have hxml_ne : pre ++ (mkTU s t k1 ++ (mid ++ (mkTU s t k2 ++ post))) ≠ [] := by
    intro hh
    have := congrArg List.length hh
    simp [mkTU, tagTU] at this
  have hedit : collectEdited
      [⟨false, some ⟨k1, new, t⟩⟩, ⟨false, some ⟨k2, t, t⟩⟩] =
      [(k1, (new, t))] := by
    simp [collectEdited, hk1ne, hnewne, dictInsert]
  rw [update_xml_content, if_neg hxml_ne, if_neg (by simp)]
  simp only [hedit]
  rw [if_neg (by simp)]
  simp only [findAll_two pre mid post s t k1 k2 hpre hmid hpost hs ht hk1 hk2]
  have henum : ([mkTU s t k1, mkTU s t k2]).enum =
      [(0, mkTU s t k1), (1, mkTU s t k2)] := rfl
  rw [henum]
  have hfold : List.foldl (firstPassStep [(k1, (new, t))])
      (pre ++ (mkTU s t k1 ++ (mid ++ (mkTU s t k2 ++ post))), [])
      [(0, mkTU s t k1), (1, mkTU s t k2)] =
      (pre ++ ((markerStart 0 ++ mkTU s new k1 ++ markerEnd 0) ++
        (mid ++ (mkTU s t k2 ++ post))), [k1]) := by
    rw [List.foldl_cons,
      firstPass_tu1 pre mid post s t k1 k2 new hpre hmid hpost hs ht hk1 hk2
        hnew hk1s hne,
      List.foldl_cons,
      firstPass_tu2 _ s t k1 k2 new hs ht hk2 hk2s hne,
      List.foldl_nil]
  rw [hfold]
  rw [if_pos (by simp)]
  simp only
  rw [reSub_x2 pre mid post s t k1 k2 new hpre hmid hpost hs ht hk1 hk2 hnew]

theorem update_xml_targeted_witness :
    update_xml_content
      (("x ").data ++ (mkTU ("S").data ("T").data ("A").data ++
        ((" ").data ++ (mkTU ("S").data ("T").data ("B").data ++ (" y").data))))
      [⟨false, some ⟨("A").data, ("N").data, ("T").data⟩⟩,
       ⟨false, some ⟨("B").data, ("T").data, ("T").data⟩⟩] =
      .ok (("x ").data ++ (mkTU ("S").data ("N").data ("A").data ++
        ((" ").data ++ (mkTU ("S").data ("T").data ("B").data ++ (" y").data)))) :=
  update_xml_targeted (("x ").data) ((" ").data) ((" y").data)
    (("S").data) (("T").data) (("A").data) (("B").data) (("N").data)
    (by decide) (by decide) (by decide) (by decide) (by decide) (by decide)
    (by decide) (by decide) (by decide) (by decide) (by decide) (by decide)
    (by decide)

theorem collectEdited_nil (rs : List URow)
    (h : ∀ row ∈ rs, ∀ it, row.item = some it →
      it.target_text = it.original_target_text) :
    collectEdited rs = [] := by
  rw [collectEdited]
  suffices hgen : ∀ acc : List (Str × (Str × Str)),
      rs.foldl (fun acc row =>
        match row.item with
        | none => acc
        | some it =>
          if row.is_header then acc
          else if it.key = [] then acc
          else if it.target_text = it.original_target_text then acc
          else dictInsert acc it.key (it.target_text, it.original_target_text))
        acc = acc by
    exact hgen []
  induction rs with
  | nil => intro acc; rfl
  | cons row rest ih =>
    intro acc
    rw [List.foldl_cons]
    have hstep : (match row.item with
        | none => acc
        | some it =>
          if row.is_header then acc
          else if it.key = [] then acc
          else if it.target_text = it.original_target_text then acc
          else dictInsert acc it.key (it.target_text, it.original_target_text)) =
        acc := by
      cases hit : row.item with
      | none => rfl
      | some it =>
        simp [h row (List.mem_cons_self row rest) it hit]
    rw [hstep]
    exact ih (fun r hr it hit => h r (List.mem_cons_of_mem row hr) it hit) acc

/-- C1: when every record's target text equals its original target text,
the patcher returns the original XML byte for byte. -/
theorem update_xml_content_no_edit (xml : Str) (rs : List URow)
    (hx : xml ≠ []) (hr : rs ≠ [])
    (h : ∀ row ∈ rs, ∀ it, row.item = some it →
      it.target_text = it.original_target_text) :
    update_xml_content xml rs = .ok xml := by
  rw [update_xml_content, if_neg hx, if_neg hr]
  simp only [collectEdited_nil rs h]
  rfl

/-- C7: the patcher raises (returns an error) exactly when the original
text is empty or the record list is empty; on any other input it returns a
result text. -/
theorem update_xml_content_error_iff (xml : Str) (rs : List URow) :
    (∃ e, update_xml_content xml rs = .error e) ↔ (xml = [] ∨ rs = []) := by
  constructor
  · intro ⟨e, he⟩
    by_cases hx : xml = []
    · exact Or.inl hx
    · by_cases hr : rs = []
      · exact Or.inr hr
      · exfalso
        rw [update_xml_content, if_neg hx, if_neg hr] at he
        dsimp only at he
        split at he <;> cases he
  · intro h
    rcases h with h | h
    · exact ⟨_, by rw [update_xml_content, if_pos h]⟩
    · by_cases hx : xml = []
      · exact ⟨_, by rw [update_xml_content, if_pos hx]⟩
      · exact ⟨_, by rw [update_xml_content, if_neg hx, if_pos h]⟩

/-! Normalization idempotence toolkit. -/

theorem dropWhile_idem (p : Char → Bool) (s : Str) :
    (s.dropWhile p).dropWhile p = s.dropWhile p := by
  induction s with
  | nil => rfl
  | cons c t ih =>
    by_cases hc : p c = true
    · simp [List.dropWhile_cons, hc, ih]
    · simp [List.dropWhile_cons, hc]

theorem head_dropWhile_false (p : Char → Bool) :
    ∀ (s d : Str) (c : Char), s.dropWhile p = c :: d → p c = false := by
  intro s
  induction s with
  | nil => intro d c h; simp at h
  | cons x t ih =>
    intro d c h
    by_cases hx : p x = true
    · rw [List.dropWhile_cons, if_pos hx] at h
      exact ih d c h
    · rw [List.dropWhile_cons, if_neg hx] at h
      cases h
      simpa using hx


theorem pystrip_eq (s : Str) : pystrip s = rstrip (s.dropWhile isPySpace) := rfl

theorem rstrip_idem (s : Str) : rstrip (rstrip s) = rstrip s := by
  simp [rstrip, dropWhile_idem]

theorem rstrip_isPrefix (s : Str) : rstrip s <+: s := by
  have h := List.dropWhile_suffix (l := s.reverse) isPySpace
  have h2 : (s.reverse.dropWhile isPySpace).reverse <+: s.reverse.reverse :=
    List.reverse_prefix.mpr h
  simpa [rstrip] using h2

theorem lstrip_of_head_false (s : Str)
    (h : ∀ c d, s = c :: d → isPySpace c = false) :
    s.dropWhile isPySpace = s := by
  cases s with
  | nil => rfl
  | cons c d => rw [List.dropWhile_cons, if_neg (by simp [h c d rfl])]

theorem pystrip_idem (s : Str) : pystrip (pystrip s) = pystrip s := by
  rw [pystrip_eq, pystrip_eq]
  set y := s.dropWhile isPySpace with hy
  have hylstrip : (rstrip y).dropWhile isPySpace = rstrip y := by
    apply lstrip_of_head_false
    intro c d hcd
    obtain ⟨z, hz⟩ := rstrip_isPrefix y
    rw [hcd] at hz
    have hyc : y = c :: (d ++ z) := by rw [← hz]; simp
    have : y.dropWhile isPySpace = y := by rw [hy, dropWhile_idem]
    rw [hyc] at this
    by_cases hc : isPySpace c = true
    · rw [List.dropWhile_cons, if_pos hc] at this
      have h1 : ((d ++ z).dropWhile isPySpace).length ≤ (d ++ z).length :=
        (List.dropWhile_sublist isPySpace).length_le
      have h2 := congrArg List.length this
      simp only [List.length_cons] at h2
      omega
    · simpa using hc
  rw [hylstrip, rstrip_idem]


theorem mem_collapseAux (s : Str) :
    ∀ b c, c ∈ collapseWsAux b s → c = ' ' ∨ c ∈ s := by
  induction s with
  | nil => intro b c hc; simp [collapseWsAux] at hc
  | cons x t ih =>
    intro b c hc
    by_cases hx : isPySpace x = true
    · cases b with
      | false =>
        rw [show collapseWsAux false (x :: t) = ' ' :: collapseWsAux true t by
          simp [collapseWsAux, hx]] at hc
        rcases List.mem_cons.mp hc with rfl | hc2
        · exact Or.inl rfl
        · rcases ih true c hc2 with h1 | h2
          · exact Or.inl h1
          · exact Or.inr (List.mem_cons_of_mem x h2)
      | true =>
        rw [show collapseWsAux true (x :: t) = collapseWsAux true t by
          simp [collapseWsAux, hx]] at hc
        rcases ih true c hc with h1 | h2
        · exact Or.inl h1
        · exact Or.inr (List.mem_cons_of_mem x h2)
    · have hx2 : isPySpace x = false := by simpa using hx
      rw [show collapseWsAux b (x :: t) = x :: collapseWsAux false t by
        cases b <;> simp [collapseWsAux, hx2]] at hc
      rcases List.mem_cons.mp hc with rfl | hc2
      · exact Or.inr (List.mem_cons_self c t)
      · rcases ih false c hc2 with h1 | h2
        · exact Or.inl h1
        · exact Or.inr (List.mem_cons_of_mem x h2)

theorem mem_collapse (s : Str) (c : Char) (hc : c ∈ collapseWs s) :
    c = ' ' ∨ c ∈ s :=
  mem_collapseAux s false c hc

theorem collapseAux_true_head (s : Str) :
    ∀ d t2, collapseWsAux true s = d :: t2 → isPySpace d = false := by
  induction s with
  | nil => intro d t2 h; simp [collapseWsAux] at h
  | cons x t ih =>
    intro d t2 h
    by_cases hx : isPySpace x = true
    · rw [show collapseWsAux true (x :: t) = collapseWsAux true t by
        simp [collapseWsAux, hx]] at h
      exact ih d t2 h
    · have hx2 : isPySpace x = false := by simpa using hx
      rw [show collapseWsAux true (x :: t) = x :: collapseWsAux false t by
        simp [collapseWsAux, hx2]] at h
      cases h
      exact hx2

theorem isol_collapseAux (s : Str) : ∀ b, IsolSp (collapseWsAux b s) := by
  induction s with
  | nil =>
    intro b
    exact ⟨by simp [collapseWsAux], by simp [collapseWsAux]⟩
  | cons x t ih =>
    intro b
    by_cases hx : isPySpace x = true
    · cases b with
      | true =>
        rw [show collapseWsAux true (x :: t) = collapseWsAux true t by
          simp [collapseWsAux, hx]]
        exact ih true
      | false =>
        rw [show collapseWsAux false (x :: t) = ' ' :: collapseWsAux true t by
          simp [collapseWsAux, hx]]
        obtain ⟨ih1, ih2⟩ := ih true
        constructor
        · intro c hc hwc
          rcases List.mem_cons.mp hc with rfl | hc2
          · rfl
          · exact ih1 c hc2 hwc
        · rw [List.chain'_cons']
          refine ⟨?_, ih2⟩
          intro b2 hb2
          cases hcw : collapseWsAux true t with
          | nil => rw [hcw] at hb2; simp at hb2
          | cons d t2 =>
            rw [hcw] at hb2
            simp only [List.head?_cons, Option.mem_def, Option.some.injEq] at hb2
            intro hcontra
            rw [← hb2] at hcontra
            rw [collapseAux_true_head t d t2 hcw] at hcontra
            exact absurd hcontra.2 (by simp)
    · have hx2 : isPySpace x = false := by simpa using hx
      rw [show collapseWsAux b (x :: t) = x :: collapseWsAux false t by
        cases b <;> simp [collapseWsAux, hx2]]
      obtain ⟨ih1, ih2⟩ := ih false
      constructor
      · intro c hc hwc
        rcases List.mem_cons.mp hc with rfl | hc2
        · exact absurd hwc (by simpa using hx2)
        · exact ih1 c hc2 hwc
      · rw [List.chain'_cons']
        refine ⟨?_, ih2⟩
        intro b2 hb2
        intro hcontra
        exact absurd hcontra.1 (by simp [hx2])

theorem isol_collapse (s : Str) : IsolSp (collapseWs s) :=
  isol_collapseAux s false

theorem collapseAux_of_isol (s : Str) (h : IsolSp s) :
    collapseWsAux false s = s ∧
      ((∀ d t2, s = d :: t2 → isPySpace d = false) →
        collapseWsAux true s = s) := by
  induction s with
  | nil => exact ⟨rfl, fun _ => rfl⟩
  | cons c t ih =>
    have htail : IsolSp t :=
      ⟨fun x hx => h.1 x (List.mem_cons_of_mem c hx), h.2.tail⟩
    obtain ⟨ih1, ih2⟩ := ih htail
    by_cases hc : isPySpace c = true
    · have hcsp : c = ' ' := h.1 c (List.mem_cons_self c t) hc
      have hthead : ∀ d t2, t = d :: t2 → isPySpace d = false := by
        intro d t2 hdt
        subst hdt
        have hcd := List.chain'_cons.mp h.2
        by_cases hdws : isPySpace d = true
        · exact absurd ⟨hc, hdws⟩ hcd.1
        · simpa using hdws
      constructor
      · rw [show collapseWsAux false (c :: t) = ' ' :: collapseWsAux true t by
          simp [collapseWsAux, hc]]
        rw [ih2 hthead, hcsp]
      · intro hhd
        exact absurd hc (by simpa using hhd c t rfl)
    · have hc2 : isPySpace c = false := by simpa using hc
      have hstep : ∀ b, collapseWsAux b (c :: t) = c :: collapseWsAux false t := by
        intro b; cases b <;> simp [collapseWsAux, hc2]
      exact ⟨by rw [hstep false, ih1], fun _ => by rw [hstep true, ih1]⟩

theorem collapse_of_isol (s : Str) (h : IsolSp s) : collapseWs s = s :=
  (collapseAux_of_isol s h).1

theorem isol_pystrip (s : Str) (h : IsolSp s) : IsolSp (pystrip s) := by
  rw [pystrip_eq]
  have hsuf : s.dropWhile isPySpace <:+ s := List.dropWhile_suffix isPySpace
  have hpre : rstrip (s.dropWhile isPySpace) <+: s.dropWhile isPySpace :=
    rstrip_isPrefix _
  have hinf : rstrip (s.dropWhile isPySpace) <:+: s :=
    hpre.isInfix.trans hsuf.isInfix
  constructor
  · intro c hc hwc
    exact h.1 c (hinf.subset hc) hwc
  · exact List.Chain'.infix h.2 hinf

theorem replClassChar_idem (c : Char) :
    replClassChar (replClassChar c) = replClassChar c := by
  by_cases h1 : isClassChar c = true
  · by_cases h2 : c = '"'
    · subst h2
      decide
    · have hval : replClassChar c = ' ' := by
        rw [replClassChar, if_pos h1, if_neg h2]
      rw [hval]
      decide
  · have hval : replClassChar c = c := by rw [replClassChar, if_neg h1]
    rw [hval, hval]

theorem mem_pystrip (s : Str) (c : Char) (hc : c ∈ pystrip s) : c ∈ s := by
  rw [pystrip_eq] at hc
  exact (List.dropWhile_suffix isPySpace).subset ((rstrip_isPrefix _).subset hc)

theorem clean_text_idem (x : Option Str) :
    clean_text_for_comparison (some (clean_text_for_comparison x)) =
      clean_text_for_comparison x := by
  cases x with
  | none =>
    rfl
  | some s0 =>
    by_cases h0 : pystrip s0 = []
    · have hinner : clean_text_for_comparison (some s0) = [] := by
        rw [clean_text_for_comparison, if_pos h0]
      rw [hinner]
      rfl
    · have hinner : clean_text_for_comparison (some s0) =
          pystrip (collapseWs ((pystrip s0).map replClassChar)) := by
        rw [clean_text_for_comparison, if_neg h0]
      rw [hinner]
      set R := pystrip (collapseWs ((pystrip s0).map replClassChar)) with hR
      have hRstrip : pystrip R = R := by rw [hR, pystrip_idem]
      rw [clean_text_for_comparison, hRstrip]
      by_cases hRnil : R = []
      · rw [if_pos hRnil, hRnil]
      · rw [if_neg hRnil]
        have hmem : ∀ c ∈ R, replClassChar c = c := by
          intro c hc
          have hc2 : c ∈ collapseWs ((pystrip s0).map replClassChar) :=
            mem_pystrip _ c (hR ▸ hc)
          rcases mem_collapse _ c hc2 with rfl | hc3
          · decide
          · obtain ⟨d, _, rfl⟩ := List.mem_map.mp hc3
            exact replClassChar_idem d
        have hmap : R.map replClassChar = R := by
          calc R.map replClassChar = R.map id := List.map_congr_left hmem
          _ = R := List.map_id R
        rw [hmap]
        have hisol : IsolSp R := by
          rw [hR]
          exact isol_pystrip _ (isol_collapse _)
        rw [collapse_of_isol R hisol, hRstrip]

/-- C9: the active comparison normalization is idempotent, and both `None`
and the empty string normalize to the empty string. -/
theorem clean_text_idempotent :
    (∀ x : Option Str,
        clean_text_for_comparison (some (clean_text_for_comparison x)) =
          clean_text_for_comparison x) ∧
      clean_text_for_comparison none = [] ∧
      clean_text_for_comparison (some []) = [] :=
  ⟨clean_text_idem, rfl, rfl⟩

theorem parseFold_skip (f : Nat → Str → Nat → Option (List Record))
    (gidx : Nat) (g : Str) (ps1 ps2 : List (Nat × Str)) (acc : List Record)
    (h : ∀ start, f gidx g start = none) :
    parseFold f (ps1 ++ (gidx, g) :: ps2) acc = parseFold f (ps1 ++ ps2) acc := by
  induction ps1 generalizing acc with
  | nil =>
    simp only [List.nil_append, parseFold, h acc.length]
  | cons p rest ih =>
    obtain ⟨j, b⟩ := p
    simp only [List.cons_append, parseFold]
    cases hf : f j b acc.length with
    | none => exact ih acc
    | some recs => exact ih (acc ++ recs)

theorem parse_xml_no_groups (content : Str)
    (h : findAllElems gOpenL gCloseL content = []) : parse_xml content = [] := by
  rw [parse_xml, parseXmlWith, h]
  rfl

/-- C8: a group on which the processor fails contributes nothing and
extraction continues over the remaining groups unchanged; a text with no
locatable group yields the empty record list rather than an error (the
embedding is a total function, so extraction never fails as a whole). -/
theorem parse_xml_group_fault_tolerance :
    (∀ (f : Nat → Str → Nat → Option (List Record)) (gidx : Nat) (g : Str)
        (ps1 ps2 : List (Nat × Str)) (acc : List Record),
        (∀ start, f gidx g start = none) →
        parseFold f (ps1 ++ (gidx, g) :: ps2) acc =
          parseFold f (ps1 ++ ps2) acc) ∧
    (∀ content : Str, findAllElems gOpenL gCloseL content = [] →
        parse_xml content = []) := by
  constructor
  · intro f gidx g ps1 ps2 acc h
    exact parseFold_skip f gidx g ps1 ps2 acc h
  · intro content h
    exact parse_xml_no_groups content h

theorem parse_xml_group_fault_tolerance_witness :
    parseFold (fun gidx _ _ => if gidx = 0 then none else some [])
        ([] ++ (0, ("bad group").data) :: [(1, ("other").data)]) [] =
      parseFold (fun gidx _ _ => if gidx = 0 then none else some [])
        ([] ++ [(1, ("other").data)]) [] ∧
    parse_xml (("no groups here").data) = [] :=
  ⟨parse_xml_group_fault_tolerance.1 _ 0 (("bad group").data) [] _ []
      (fun _ => rfl),
    parse_xml_group_fault_tolerance.2 (("no groups here").data) (by decide)⟩

theorem update_xml_content_no_edit_witness :
    update_xml_content (("<x/>").data)
        [⟨false, some ⟨("K").data, ("T").data, ("T").data⟩⟩] =
      .ok (("<x/>").data) :=
  update_xml_content_no_edit (("<x/>").data)
    [⟨false, some ⟨("K").data, ("T").data, ("T").data⟩⟩]
    (by decide) (by decide)
    (fun row hrow it hit => by
      simp only [List.mem_singleton] at hrow
      subst hrow
      cases hit
      rfl)

theorem processRows_cons (simRatio : Str → Str → ℚ)
    (lookup : List (Str × (Str × Str))) (si ci : Nat) (row : List Str)
    (rest : List (List Str)) (st : Nat × List MUpdate) :
    processRows simRatio lookup si ci (row :: rest) st =
      if 500 ≤ st.1 then st
      else
        let src := pystrip ((row.get? si).getD [])
        let cmt := pystrip ((row.get? ci).getD [])
        if src = [] || cmt = [] then processRows simRatio lookup si ci rest st
        else
          let cl := preprocess_text src
          match dictLookup lookup cl with
          | some md =>
            processRows simRatio lookup si ci rest
              (st.1 + 1, st.2 ++ [⟨md.1, cl, cmt, ("exact").data, none⟩])
          | none =>
            match fuzzyScan simRatio cl lookup with
            | (some bm, br) =>
              processRows simRatio lookup si ci rest
                (st.1 + 1, st.2 ++ [⟨bm.1, bm.2, cmt, ("fuzzy").data, some br⟩])
            | (none, _) => processRows simRatio lookup si ci rest st := rfl

theorem processRows_cons_skip (simRatio : Str → Str → ℚ)
    (lookup : List (Str × (Str × Str))) (si ci : Nat) (row : List Str)
    (rest : List (List Str)) (st : Nat × List MUpdate)
    (hcap : ¬ 500 ≤ st.1)
    (hsc : pystrip ((row.get? si).getD []) = [] ∨
      pystrip ((row.get? ci).getD []) = []) :
    processRows simRatio lookup si ci (row :: rest) st =
      processRows simRatio lookup si ci rest st := by
  rw [processRows_cons, if_neg hcap]
  dsimp only
  rw [if_pos (show ((pystrip ((row.get? si).getD []) = [] ||
    pystrip ((row.get? ci).getD []) = []) = true) by
      rcases hsc with h | h <;> rw [h] <;> simp)]

theorem processRows_cons_exact (simRatio : Str → Str → ℚ)
    (lookup : List (Str × (Str × Str))) (si ci : Nat) (row : List Str)
    (rest : List (List Str)) (st : Nat × List MUpdate) (md : Str × Str)
    (hcap : ¬ 500 ≤ st.1)
    (hsrc : pystrip ((row.get? si).getD []) ≠ [])
    (hcmt : pystrip ((row.get? ci).getD []) ≠ [])
    (hlk : dictLookup lookup
      (preprocess_text (pystrip ((row.get? si).getD []))) = some md) :
    processRows simRatio lookup si ci (row :: rest) st =
      processRows simRatio lookup si ci rest
        (st.1 + 1, st.2 ++
          [⟨md.1, preprocess_text (pystrip ((row.get? si).getD [])),
            pystrip ((row.get? ci).getD []), ("exact").data, none⟩]) := by
  rw [processRows_cons, if_neg hcap]
  dsimp only
  rw [if_neg (show ¬((pystrip ((row.get? si).getD []) = [] ||
    pystrip ((row.get? ci).getD []) = []) = true) by
      simp only [Bool.or_eq_true, decide_eq_true_eq, not_or]
      exact ⟨hsrc, hcmt⟩)]
  rw [hlk]

theorem processRows_cons_fuzzy (simRatio : Str → Str → ℚ)
    (lookup : List (Str × (Str × Str))) (si ci : Nat) (row : List Str)
    (rest : List (List Str)) (st : Nat × List MUpdate) (bm : Str × Str) (br : ℚ)
    (hcap : ¬ 500 ≤ st.1)
    (hsrc : pystrip ((row.get? si).getD []) ≠ [])
    (hcmt : pystrip ((row.get? ci).getD []) ≠ [])
    (hlk : dictLookup lookup
      (preprocess_text (pystrip ((row.get? si).getD []))) = none)
    (hfz : fuzzyScan simRatio
      (preprocess_text (pystrip ((row.get? si).getD []))) lookup =
        (some bm, br)) :
    processRows simRatio lookup si ci (row :: rest) st =
      processRows simRatio lookup si ci rest
        (st.1 + 1, st.2 ++
          [⟨bm.1, bm.2, pystrip ((row.get? ci).getD []),
            ("fuzzy").data, some br⟩]) := by
  rw [processRows_cons, if_neg hcap]
  dsimp only
  rw [if_neg (show ¬((pystrip ((row.get? si).getD []) = [] ||
    pystrip ((row.get? ci).getD []) = []) = true) by
      simp only [Bool.or_eq_true, decide_eq_true_eq, not_or]
      exact ⟨hsrc, hcmt⟩)]
  rw [hlk]
  dsimp only
  rw [hfz]

theorem processRows_cons_nomatch (simRatio : Str → Str → ℚ)
    (lookup : List (Str × (Str × Str))) (si ci : Nat) (row : List Str)
    (rest : List (List Str)) (st : Nat × List MUpdate) (r0 : ℚ)
    (hcap : ¬ 500 ≤ st.1)
    (hsrc : pystrip ((row.get? si).getD []) ≠ [])
    (hcmt : pystrip ((row.get? ci).getD []) ≠ [])
    (hlk : dictLookup lookup
      (preprocess_text (pystrip ((row.get? si).getD []))) = none)
    (hfz : fuzzyScan simRatio
      (preprocess_text (pystrip ((row.get? si).getD []))) lookup =
        (none, r0)) :
    processRows simRatio lookup si ci (row :: rest) st =
      processRows simRatio lookup si ci rest st := by
  rw [processRows_cons, if_neg hcap]
  dsimp only
  rw [if_neg (show ¬((pystrip ((row.get? si).getD []) = [] ||
    pystrip ((row.get? ci).getD []) = []) = true) by
      simp only [Bool.or_eq_true, decide_eq_true_eq, not_or]
      exact ⟨hsrc, hcmt⟩)]
  rw [hlk]
  dsimp only
  rw [hfz]

theorem updShapeOk_exact (k s c : Str) :
    updShapeOk ⟨k, s, c, ("exact").data, none⟩ = true := rfl

theorem updShapeOk_fuzzy (k s c : Str) (r : ℚ) :
    updShapeOk ⟨k, s, c, ("fuzzy").data, some r⟩ = true := rfl

theorem processRows_inv (simRatio : Str → Str → ℚ)
    (lookup : List (Str × (Str × Str))) (si ci : Nat) :
    ∀ (rows : List (List Str)) (st : Nat × List MUpdate),
      st.1 = st.2.length ∧ st.2.all updShapeOk = true →
      (processRows simRatio lookup si ci rows st).1 =
          (processRows simRatio lookup si ci rows st).2.length ∧
        (processRows simRatio lookup si ci rows st).2.all updShapeOk = true := by
  intro rows
  induction rows with
  | nil => intro st h; exact h
  | cons row rest ih =>
    intro st h
    by_cases hcap : 500 ≤ st.1
    · rw [processRows_cons, if_pos hcap]
      exact h
    · by_cases hsrc : pystrip ((row.get? si).getD []) = []
      · rw [processRows_cons_skip simRatio lookup si ci row rest st hcap
          (Or.inl hsrc)]
        exact ih st h
      · by_cases hcmt : pystrip ((row.get? ci).getD []) = []
        · rw [processRows_cons_skip simRatio lookup si ci row rest st hcap
            (Or.inr hcmt)]
          exact ih st h
        · cases hlk : dictLookup lookup
            (preprocess_text (pystrip ((row.get? si).getD []))) with
          | some md =>
            rw [processRows_cons_exact simRatio lookup si ci row rest st md
              hcap hsrc hcmt hlk]
            apply ih
            refine ⟨?_, ?_⟩
            · simp [h.1]
            · rw [List.all_append, h.2, Bool.true_and]
              rfl
          | none =>
            rcases hfz : fuzzyScan simRatio
              (preprocess_text (pystrip ((row.get? si).getD []))) lookup
              with ⟨ob, br⟩
            cases ob with
            | some bm =>
              rw [processRows_cons_fuzzy simRatio lookup si ci row rest st bm
                br hcap hsrc hcmt hlk hfz]
              apply ih
              refine ⟨?_, ?_⟩
              · simp [h.1]
              · rw [List.all_append, h.2, Bool.true_and]
                rfl
            | none =>
              rw [processRows_cons_nomatch simRatio lookup si ci row rest st br
                hcap hsrc hcmt hlk hfz]
              exact ih st h

theorem processTable_inv (simRatio : Str → Str → ℚ)
    (lookup : List (Str × (Str × Str))) (st : Nat × List MUpdate) (t : DocTable)
    (h : st.1 = st.2.length ∧ st.2.all updShapeOk = true) :
    (processTable simRatio lookup st t).1 =
        (processTable simRatio lookup st t).2.length ∧
      (processTable simRatio lookup st t).2.all updShapeOk = true := by
  rw [processTable]
  cases h1 : findColIdx t.columns (("source").data) with
  | none => exact h
  | some si =>
    cases h2 : findColIdx t.columns (("comment").data) with
    | none => exact h
    | some ci => exact processRows_inv simRatio lookup si ci t.rows st h

theorem foldl_processTable_inv (simRatio : Str → Str → ℚ)
    (lookup : List (Str × (Str × Str))) :
    ∀ (ts : List DocTable) (st : Nat × List MUpdate),
      st.1 = st.2.length ∧ st.2.all updShapeOk = true →
      (ts.foldl (processTable simRatio lookup) st).1 =
          (ts.foldl (processTable simRatio lookup) st).2.length ∧
        (ts.foldl (processTable simRatio lookup) st).2.all updShapeOk = true := by
  intro ts
  induction ts with
  | nil => intro st h; exact h
  | cons t rest ih =>
    intro st h
    rw [List.foldl_cons]
    exact ih (processTable simRatio lookup st t)
      (processTable_inv simRatio lookup st t h)

/-- C10: the result of the matcher always satisfies the invariant that the
match counter equals the number of emitted updates, and every update is
either an exact match with no ratio entry or a fuzzy match carrying a
ratio. -/
theorem match_result_invariant (simRatio : Str → Str → ℚ)
    (tables : List DocTable) (dat : List MRow) :
    (match_content_with_mxliff simRatio tables dat).matchCount =
        (match_content_with_mxliff simRatio tables dat).updates.length ∧
      (match_content_with_mxliff simRatio tables dat).updates.all updShapeOk =
        true := by
  rw [match_content_with_mxliff]
  by_cases h1 : (dat = [] || tables = []) = true
  · rw [if_pos h1]
    exact ⟨rfl, rfl⟩
  · rw [if_neg h1]
    dsimp only
    by_cases h2 : ((tables.filter (·.has_conversation_column)).filter
        fun t => 0 < t.rows.length) = []
    · rw [if_pos h2]
      exact ⟨rfl, rfl⟩
    · rw [if_neg h2]
      exact foldl_processTable_inv simRatio (buildLookup dat) _ (0, [])
        ⟨rfl, rfl⟩

theorem processRows_le (simRatio : Str → Str → ℚ)
    (lookup : List (Str × (Str × Str))) (si ci : Nat) :
    ∀ (rows : List (List Str)) (st : Nat × List MUpdate),
      st.1 ≤ 500 → (processRows simRatio lookup si ci rows st).1 ≤ 500 := by
  intro rows
  induction rows with
  | nil => intro st h; exact h
  | cons row rest ih =>
    intro st h
    by_cases hcap : 500 ≤ st.1
    · rw [processRows_cons, if_pos hcap]
      exact h
    · by_cases hsrc : pystrip ((row.get? si).getD []) = []
      · rw [processRows_cons_skip simRatio lookup si ci row rest st hcap
          (Or.inl hsrc)]
        exact ih st h
      · by_cases hcmt : pystrip ((row.get? ci).getD []) = []
        · rw [processRows_cons_skip simRatio lookup si ci row rest st hcap
            (Or.inr hcmt)]
          exact ih st h
        · cases hlk : dictLookup lookup
            (preprocess_text (pystrip ((row.get? si).getD []))) with
          | some md =>
            rw [processRows_cons_exact simRatio lookup si ci row rest st md
              hcap hsrc hcmt hlk]
            exact ih _ (by omega)
          | none =>
            rcases hfz : fuzzyScan simRatio
              (preprocess_text (pystrip ((row.get? si).getD []))) lookup
              with ⟨ob, br⟩
            cases ob with
            | some bm =>
              rw [processRows_cons_fuzzy simRatio lookup si ci row rest st bm
                br hcap hsrc hcmt hlk hfz]
              exact ih _ (by omega)
            | none =>
              rw [processRows_cons_nomatch simRatio lookup si ci row rest st br
                hcap hsrc hcmt hlk hfz]
              exact ih st h

theorem processTable_le (simRatio : Str → Str → ℚ)
    (lookup : List (Str × (Str × Str))) (st : Nat × List MUpdate) (t : DocTable)
    (h : st.1 ≤ 500) : (processTable simRatio lookup st t).1 ≤ 500 := by
  rw [processTable]
  cases h1 : findColIdx t.columns (("source").data) with
  | none => exact h
  | some si =>
    cases h2 : findColIdx t.columns (("comment").data) with
    | none => exact h
    | some ci => exact processRows_le simRatio lookup si ci t.rows st h

theorem foldl_processTable_le (simRatio : Str → Str → ℚ)
    (lookup : List (Str × (Str × Str))) :
    ∀ (ts : List DocTable) (st : Nat × List MUpdate),
      st.1 ≤ 500 → (ts.foldl (processTable simRatio lookup) st).1 ≤ 500 := by
  intro ts
  induction ts with
  | nil => intro st h; exact h
  | cons t rest ih =>
    intro st h
    rw [List.foldl_cons]
    exact ih (processTable simRatio lookup st t)
      (processTable_le simRatio lookup st t h)

/-- C6: the matcher never emits more than 500 updates, and once the running
count has reached 500 the row loop leaves its state untouched, so no further
row produces an update. -/
theorem match_updates_capped :
    (∀ (simRatio : Str → Str → ℚ) (tables : List DocTable) (dat : List MRow),
        (match_content_with_mxliff simRatio tables dat).updates.length ≤ 500) ∧
    (∀ (simRatio : Str → Str → ℚ) (lookup : List (Str × (Str × Str)))
        (si ci : Nat) (rows : List (List Str)) (st : Nat × List MUpdate),
        500 ≤ st.1 → processRows simRatio lookup si ci rows st = st) := by
  constructor
  · intro simRatio tables dat
    rw [match_content_with_mxliff]
    by_cases h1 : (dat = [] || tables = []) = true
    · rw [if_pos h1]
      simp
    · rw [if_neg h1]
      dsimp only
      by_cases h2 : ((tables.filter (·.has_conversation_column)).filter
          fun t => 0 < t.rows.length) = []
      · rw [if_pos h2]
        simp
      · rw [if_neg h2]
        have hinv := foldl_processTable_inv simRatio (buildLookup dat)
          ((tables.filter (·.has_conversation_column)).filter
            fun t => 0 < t.rows.length) (0, []) ⟨rfl, rfl⟩
        have hle := foldl_processTable_le simRatio (buildLookup dat)
          ((tables.filter (·.has_conversation_column)).filter
            fun t => 0 < t.rows.length) (0, []) (by omega)
        dsimp only
        omega
  · intro simRatio lookup si ci rows st h
    cases rows with
    | nil => rfl
    | cons row rest => rw [processRows_cons, if_pos h]

theorem match_updates_capped_witness :
    (match_content_with_mxliff (fun _ _ => 0) [] []).updates.length ≤ 500 ∧
      processRows (fun _ _ => 0) [] 0 0 [[]] (500, []) = (500, []) :=
  ⟨match_updates_capped.1 (fun _ _ => 0) [] [],
    match_updates_capped.2 (fun _ _ => 0) [] 0 0 [[]] (500, []) (by decide)⟩

theorem match_boundary_red (f : Str → Str → ℚ) :
    match_content_with_mxliff f tabsB datB =
      ⟨(processRows f lkB 0 1 [rowB] (0, [])).1,
        (processRows f lkB 0 1 [rowB] (0, [])).2⟩ := rfl

theorem fuzzyScan_boundary_red (simRatio : Str → Str → ℚ) :
    fuzzyScan simRatio (("abcdefghiX").data) lkB =
      (if (4 : ℚ)/5 < simRatio (("abcdefghiX").data) (("abcdefghij").data)
       then (some ((("K").data), (("abcdefghij").data)),
         simRatio (("abcdefghiX").data) (("abcdefghij").data))
       else (none, 4/5)) := rfl

theorem preprocess_rowB :
    preprocess_text (pystrip ((rowB.get? 0).getD [])) =
      ("abcdefghiX").data := by decide

/-- C5: with the boundary fixture (one candidate whose cleaned source has
length 10), a similarity ratio of exactly 0.80 produces no update (the
threshold comparison is strict), while a ratio of 0.81 produces the fuzzy
update carrying that ratio as `match_ratio`. -/
theorem fuzzy_threshold_boundary (simRatio : Str → Str → ℚ) :
    (simRatio (("abcdefghiX").data) (("abcdefghij").data) = 4/5 →
      match_content_with_mxliff simRatio tabsB datB = ⟨0, []⟩) ∧
    (simRatio (("abcdefghiX").data) (("abcdefghij").data) = 81/100 →
      match_content_with_mxliff simRatio tabsB datB =
        ⟨1, [⟨("K").data, ("abcdefghij").data, ("c").data,
          ("fuzzy").data, some (81/100)⟩]⟩) := by
  constructor
  · intro h45
    have hf1 : fuzzyScan simRatio (("abcdefghiX").data) lkB = (none, 4/5) := by
      rw [fuzzyScan_boundary_red, h45, if_neg (by norm_num)]
    have hfz : fuzzyScan simRatio
        (preprocess_text (pystrip ((rowB.get? 0).getD []))) lkB =
          (none, 4/5) := by
      rw [preprocess_rowB]
      exact hf1
    rw [match_boundary_red simRatio]
    rw [processRows_cons_nomatch simRatio lkB 0 1 rowB [] (0, []) (4/5)
      (by decide) (by decide) (by decide) (by decide) hfz]
    rfl
  · intro h81
    have hf2 : fuzzyScan simRatio (("abcdefghiX").data) lkB =
        (some ((("K").data), (("abcdefghij").data)), 81/100) := by
      rw [fuzzyScan_boundary_red, h81, if_pos (by norm_num)]
    have hfz : fuzzyScan simRatio
        (preprocess_text (pystrip ((rowB.get? 0).getD []))) lkB =
          (some ((("K").data), (("abcdefghij").data)), 81/100) := by
      rw [preprocess_rowB]
      exact hf2
    rw [match_boundary_red simRatio]
    rw [processRows_cons_fuzzy simRatio lkB 0 1 rowB [] (0, [])
      ((("K").data), (("abcdefghij").data)) (81/100)
      (by decide) (by decide) (by decide) (by decide) hfz]
    rfl

theorem fuzzy_threshold_boundary_witness :
    match_content_with_mxliff (fun _ _ => 4/5) tabsB datB = ⟨0, []⟩ ∧
      match_content_with_mxliff (fun _ _ => (81 : ℚ)/100) tabsB datB =
        ⟨1, [⟨("K").data, ("abcdefghij").data, ("c").data,
          ("fuzzy").data, some (81/100)⟩]⟩ :=
  ⟨(fuzzy_threshold_boundary (fun _ _ => 4/5)).1 rfl,
    (fuzzy_threshold_boundary (fun _ _ => (81 : ℚ)/100)).2 rfl⟩

theorem findIdxGo_first (p : Str → Bool) :
    ∀ (cols : List Str) (s i : Nat), List.findIdx? p cols s = some i →
      s ≤ i ∧
        (∃ c, cols.get? (i - s) = some c ∧ p c = true) ∧
        ∀ j c, j < i - s → cols.get? j = some c → p c = false := by
  intro cols
  induction cols with
  | nil => intro s i h; simp [List.findIdx?] at h
  | cons x xs ih =>
    intro s i h
    rw [List.findIdx?_cons] at h
    by_cases hx : p x = true
    · rw [if_pos hx] at h
      cases h
      refine ⟨Nat.le_refl s, ⟨x, by simp, hx⟩, ?_⟩
      intro j c hj hc
      exact absurd hj (by omega)
    · rw [if_neg hx] at h
      obtain ⟨h1, ⟨c, hc1, hc2⟩, h3⟩ := ih (s + 1) i h
      refine ⟨by omega, ⟨c, ?_, hc2⟩, ?_⟩
      · have hsub : i - s = (i - (s + 1)) + 1 := by omega
        rw [hsub]
        simpa using hc1
      · intro j c2 hj hc
        cases j with
        | zero =>
          simp at hc
          rw [← hc]
          simpa using hx
        | succ j2 =>
          apply h3 j2 c2 (by omega)
          simpa using hc

theorem findColIdx_first (cols : List Str) (needle : Str) (i : Nat)
    (h : findColIdx cols needle = some i) :
    (∃ c, cols.get? i = some c ∧
      containsSub needle (lowerStr c) = true) ∧
      ∀ j c, j < i → cols.get? j = some c →
        containsSub needle (lowerStr c) = false := by
  have hgo := findIdxGo_first (fun c => containsSub needle (lowerStr c))
    cols 0 i h
  simpa using hgo.2

/-- C4 (amended): the comment column of a table is the FIRST column whose
lower-cased name contains "comment" — columns also mentioning "coteam"
receive no preference — and a table lacking a source column or a comment
column is skipped; when both columns exist the rows are scanned at exactly
those two column indices. -/
theorem comment_column_selection :
    (∀ (cols : List Str) (i : Nat),
        findColIdx cols (("comment").data) = some i →
        (∃ c, cols.get? i = some c ∧
          containsSub (("comment").data) (lowerStr c) = true) ∧
          ∀ j c, j < i → cols.get? j = some c →
            containsSub (("comment").data) (lowerStr c) = false) ∧
    (∀ (simRatio : Str → Str → ℚ) (lookup : List (Str × (Str × Str)))
        (st : Nat × List MUpdate) (t : DocTable),
        (findColIdx t.columns (("source").data) = none ∨
          findColIdx t.columns (("comment").data) = none) →
        processTable simRatio lookup st t = st) ∧
    (∀ (simRatio : Str → Str → ℚ) (lookup : List (Str × (Str × Str)))
        (st : Nat × List MUpdate) (t : DocTable) (si ci : Nat),
        findColIdx t.columns (("source").data) = some si →
        findColIdx t.columns (("comment").data) = some ci →
        processTable simRatio lookup st t =
          processRows simRatio lookup si ci t.rows st) := by
  refine ⟨?_, ?_, ?_⟩
  · intro cols i h
    exact findColIdx_first cols (("comment").data) i h
  · intro simRatio lookup st t h
    rw [processTable]
    cases hs : findColIdx t.columns (("source").data) with
    | none =>
      cases hc : findColIdx t.columns (("comment").data) with
      | none => rfl
      | some ci => rfl
    | some si =>
      cases hc : findColIdx t.columns (("comment").data) with
      | none => rfl
      | some ci =>
        exfalso
        rcases h with h | h
        · rw [hs] at h; exact Option.noConfusion h
        · rw [hc] at h; exact Option.noConfusion h
  · intro simRatio lookup st t si ci h1 h2
    rw [processTable, h1, h2]

theorem comment_column_selection_witness :
    ((∃ c, colsC.get? 1 = some c ∧
        containsSub (("comment").data) (lowerStr c) = true) ∧
      ∀ j c, j < 1 → colsC.get? j = some c →
        containsSub (("comment").data) (lowerStr c) = false) ∧
    processTable (fun _ _ => (0 : ℚ)) [] (7, []) ⟨true, [("x").data], []⟩ =
      (7, []) ∧
    processTable (fun _ _ => (0 : ℚ)) [] (0, []) tabC =
      processRows (fun _ _ => (0 : ℚ)) [] 0 1 tabC.rows (0, []) :=
  ⟨comment_column_selection.1 colsC 1 (by decide),
    comment_column_selection.2.1 (fun _ _ => (0 : ℚ)) [] (7, [])
      ⟨true, [("x").data], []⟩ (Or.inl (by decide)),
    comment_column_selection.2.2 (fun _ _ => (0 : ℚ)) [] (0, []) tabC 0 1
      (by decide) (by decide)⟩

/-- C4 counterexample: over a table whose columns are `Source`, `My
Comment`, `COTeam Comment`, the chooser worded by the claim would pick
column 2 (the coteam one), but the code picks column 1, and the emitted
update indeed carries the text of column 1. -/
theorem comment_column_counterexample :
    findColIdxClaimC4 colsC (("comment").data) (("coteam").data) = some 2 ∧
      findColIdx colsC (("comment").data) = some 1 ∧
      match_content_with_mxliff (fun _ _ => 0) [tabC] datB =
        ⟨1, [⟨("K").data, ("abcdefghij").data, ("mycmt").data,
          ("exact").data, none⟩]⟩ := by decide

/-- C3 (amended): a trans-unit's own context block overrides the group
defaults PER FIELD — the key is replaced only when the unit block provides a
key, and the note only when it provides a note; with no unit block both
group defaults survive.  In particular a unit block providing only a key
keeps the group-level note. -/
theorem unit_context_per_field_merge :
    (∀ (tu gk gn : Str), scanElemFull cgOpenL cgCloseL tu = none →
        resolveUnitContext tu gk gn = (gk, gn)) ∧
    (∀ (tu gk gn : Str) (e : ElemScan) (k : Str),
        scanElemFull cgOpenL cgCloseL tu = some e →
        scanCtx keyTypeL e.inner = some k →
        scanCtx noteTypeL e.inner = none →
        resolveUnitContext tu gk gn = (pystrip k, gn)) ∧
    (∀ (tu gk gn : Str) (e : ElemScan) (k nt : Str),
        scanElemFull cgOpenL cgCloseL tu = some e →
        scanCtx keyTypeL e.inner = some k →
        scanCtx noteTypeL e.inner = some nt →
        resolveUnitContext tu gk gn = (pystrip k, pystrip nt)) := by
  refine ⟨?_, ?_, ?_⟩
  · intro tu gk gn h1
    rw [resolveUnitContext, h1]
  · intro tu gk gn e k h1 h2 h3
    rw [resolveUnitContext, h1]
    dsimp only
    rw [h2, h3]
  · intro tu gk gn e k nt h1 h2 h3
    rw [resolveUnitContext, h1]
    dsimp only
    rw [h2, h3]

theorem unit_context_per_field_merge_witness :
    resolveUnitContext (("x").data) (("GK").data) (("GN").data) =
      ((("GK").data), (("GN").data)) ∧
    resolveUnitContext tuC3 (("GK").data) (("GN").data) =
      ((("UK").data), (("GN").data)) ∧
    resolveUnitContext tuC3b (("GK").data) (("GN").data) =
      ((("UK").data), (("UN").data)) :=
  ⟨unit_context_per_field_merge.1 (("x").data) (("GK").data) (("GN").data)
      (by decide),
    unit_context_per_field_merge.2.1 tuC3 (("GK").data) (("GN").data)
      ⟨[], [],
        (("<context context-type=\"x-key\">UK</context>").data), []⟩
      (("UK").data) (by decide) (by decide) (by decide),
    unit_context_per_field_merge.2.2 tuC3b (("GK").data) (("GN").data)
      ⟨[], [],
        (("<context context-type=\"x-key\">UK</context><context context-type=\"x-key-note\">UN</context>").data), []⟩
      (("UK").data) (("UN").data) (by decide) (by decide) (by decide)⟩

set_option maxRecDepth 10000 in
/-- C3 counterexample: in `exC3` the single trans-unit carries its own
context-group (providing only a key), yet the parsed record keeps the
unit-level key `UK` together with the group-level note `GN` — the
group defaults are not replaced entirely. -/
theorem unit_context_counterexample :
    ((findAllElems tuOpenL tuCloseL exC3).map
        fun tu => (scanElemFull cgOpenL cgCloseL tu).isSome) = [true] ∧
      (parse_xml exC3).map (fun r => (r.key, r.note_text)) =
        [((("UK").data), (("GN").data))] := by decide
